import Mathlib

/-!
The export pipeline of tmx2qml (`Tmx2Qml.cpp`): a shallow embedding of `Tmx2Qml::exportMap` and `Tmx2Qml::exportQRC`.

* A `QString` is a Lean `String`; the Qt string operations the exporter calls
  (`replace(" ", "_")`, `arg`, `operator<`, the decimal rendering of an `int`)
  are defined below from their documented behaviour.
* A `Tileset*` is an address (`Nat`), `nullptr` is `none`; a `const Tile*` is the
  pair of the owning tileset's address and the tile's id.
* `QTextStream out` is the list of lines written so far (one entry per `endl`).
* An `int` is an `Int`; the product of two `int`s is reduced modulo 2^32 into
  the range of an `int` (`intMul`).
-/

namespace Tmx2Qml

/-! ## Qt string operations -/

/-- Value of `QString::replace(" ", "_")`: every space becomes an underscore. -/
def replaceSpaces (s : String) : String :=
  String.mk (s.data.map fun c => if c = ' ' then '_' else c)

/-- Decimal text of a natural number. -/
def decNat (n : Nat) : String :=
  String.mk (Nat.toDigits 10 n)

/-- Decimal text of an `int`, as `QString::arg(int)` and `QTextStream << int`
produce it: a minus sign in front of a negative number. -/
def decInt : Int → String
  | Int.ofNat n => decNat n
  | Int.negSucc n => "-" ++ decNat (n + 1)

/-- Value of `QChar::digitValue` on the ASCII digits (`none` stands for `-1`). -/
def digitValue (c : Char) : Option Nat :=
  if 48 ≤ c.toNat ∧ c.toNat ≤ 57 then some (c.toNat - 48) else none

/-- A piece of a string as `QString::arg` scans it: a plain character, or a
place marker `%N`, `%NN`, `%LN`, `%LNN` with its number, whether it carries the
`L` flag, and its own text. -/
inductive ArgPiece where
  | text (c : Char)
  | marker (number : Nat) (isLocale : Bool) (raw : List Char)
deriving DecidableEq, Repr

/-- Where the scan of `QString::arg` stands: in plain text, just after a `%`,
just after `%L`, or after the first digit of a place marker. -/
inductive ScanMode where
  | plain
  | percent
  | percentL
  | digit (e : Nat) (isLocale : Bool) (raw : List Char)

/-- The scan resumed in plain text at character `c`: a `%` opens a possible
place marker, any other character is text. -/
def resumeAt (c : Char) (onPercent onPlain : List ArgPiece) : List ArgPiece :=
  if c = '%' then onPercent else ArgPiece.text c :: onPlain

/-- The scan of `findArgEscapes` / `replaceArgEscapes` in `qstring.cpp`, one
character at a time: a `%` followed by an optional `L` and one or two digits is
a place marker; a `%` not followed by a digit is plain text and the scan
resumes at the character that follows it. -/
def scanFrom : ScanMode → List Char → List ArgPiece
  | ScanMode.plain, [] => []
  | ScanMode.percent, [] => [ArgPiece.text '%']
  | ScanMode.percentL, [] => [ArgPiece.text '%', ArgPiece.text 'L']
  | ScanMode.digit e isLocale raw, [] => [ArgPiece.marker e isLocale raw]
  | ScanMode.plain, c :: cs =>
    resumeAt c (scanFrom ScanMode.percent cs) (scanFrom ScanMode.plain cs)
  | ScanMode.percent, c :: cs =>
    if c = 'L' then scanFrom ScanMode.percentL cs
    else
      match digitValue c with
      | some e => scanFrom (ScanMode.digit e false ['%', c]) cs
      | none =>
        ArgPiece.text '%' ::
          resumeAt c (scanFrom ScanMode.percent cs) (scanFrom ScanMode.plain cs)
  | ScanMode.percentL, c :: cs =>
    match digitValue c with
    | some e => scanFrom (ScanMode.digit e true ['%', 'L', c]) cs
    | none =>
      ArgPiece.text '%' :: ArgPiece.text 'L' ::
        resumeAt c (scanFrom ScanMode.percent cs) (scanFrom ScanMode.plain cs)
  | ScanMode.digit e isLocale raw, c :: cs =>
    match digitValue c with
    | some e2 => ArgPiece.marker (10 * e + e2) isLocale (raw ++ [c]) :: scanFrom ScanMode.plain cs
    | none =>
      ArgPiece.marker e isLocale raw ::
        resumeAt c (scanFrom ScanMode.percent cs) (scanFrom ScanMode.plain cs)

/-- The pieces of a whole string. -/
def scanArg (s : List Char) : List ArgPiece :=
  scanFrom ScanMode.plain s

/-- The lowest place-marker number among the pieces (`min_escape`), if any. -/
def minMarker : List ArgPiece → Option Nat
  | [] => none
  | ArgPiece.text _ :: ps => minMarker ps
  | ArgPiece.marker n _ _ :: ps =>
    match minMarker ps with
    | none => some n
    | some k => some (min n k)

/-- The text a piece contributes once the markers numbered `k` are replaced:
`a` for a plain marker, `la` for one with the `L` flag; other markers keep
their own text. -/
def fillPiece (k : Nat) (a la : List Char) : ArgPiece → List Char
  | ArgPiece.text c => [c]
  | ArgPiece.marker n isLocale raw => if n = k then (if isLocale then la else a) else raw

/-- Value of `QString::arg` with field width 0: every occurrence of the
lowest-numbered place marker is replaced by the argument (`la` where the
marker has the `L` flag); a string without a place marker is returned
unchanged. The argument is not scanned, but a later `arg` scans the whole
result: Qt documents that `QString("%1 %2").arg("%1f").arg("Hello")` is
`"Hellof %2"`. -/
def argFill (s a la : String) : String :=
  match minMarker (scanArg s.data) with
  | none => s
  | some k => String.mk ((scanArg s.data).map (fillPiece k a.data la.data)).flatten

/-- Value of `QString::arg(const QString &)`. -/
def argStr (s a : String) : String := argFill s a a

/-- UTF-16 code units of a character, the units a `QString` stores. -/
def charUnits (c : Char) : List Nat :=
  if c.toNat < 65536 then [c.toNat]
  else [55296 + (c.toNat - 65536) / 1024, 56320 + (c.toNat - 65536) % 1024]

/-- UTF-16 code units of a string. -/
def codeUnits (s : String) : List Nat :=
  (s.data.map charUnits).flatten

/-- Lexicographic "less than" on sequences of code units: the first differing
unit decides, and a proper prefix is less. -/
def unitsLess : List Nat → List Nat → Bool
  | _, [] => false
  | [], _ :: _ => true
  | a :: as, b :: bs => if a < b then true else if b < a then false else unitsLess as bs

/-- Value of `operator<` on two `QString`s, the comparison `std::less<QString>`
applies: lexicographic on code units. -/
def qLess (a b : String) : Bool :=
  unitsLess (codeUnits a) (codeUnits b)

/-- Insertion of one string into a list sorted by `qLess`, after the
elements that are not greater. -/
def qInsert (a : String) : List String → List String
  | [] => [a]
  | b :: l => if qLess a b then a :: b :: l else b :: qInsert a l

/-- Value of `std::sort(first, last, std::less<QString>())` on a list. -/
def qSort : List String → List String
  | [] => []
  | a :: l => qInsert a (qSort l)

/-- A finite `double` or `float` value, exactly: `num / 2 ^ scale`. Arithmetic
on these values is exact; the rounding of floating point lies outside the
embedding. -/
structure Dyadic where
  num : Int
  scale : Nat
deriving DecidableEq, Repr

/-- The comparison `|p1 - p2| * k <= min(|p1|, |p2|)` that `qFuzzyCompare`
makes, cleared of the two denominators. -/
def fuzzyWithin (k : Int) (p1 p2 : Dyadic) : Bool :=
  decide (|p1.num * 2 ^ p2.scale - p2.num * 2 ^ p1.scale| * k
    ≤ min (|p1.num| * 2 ^ p2.scale) (|p2.num| * 2 ^ p1.scale))

/-- Value of `qFuzzyCompare(double, double)` of `qglobal.h`:
`qAbs(p1 - p2) * 1000000000000. <= qMin(qAbs(p1), qAbs(p2))`. -/
def qFuzzyCompareDouble (p1 p2 : Dyadic) : Bool :=
  fuzzyWithin 1000000000000 p1 p2

/-- Value of `qFuzzyCompare(float, float)` of `qglobal.h`:
`qAbs(p1 - p2) * 100000.f <= qMin(qAbs(p1), qAbs(p2))`. -/
def qFuzzyCompareFloat (p1 p2 : Dyadic) : Bool :=
  fuzzyWithin 100000 p1 p2

/-- What the exporter takes from its surroundings: the application name and the
time stamp of the header, Qt's Unicode lower-casing, the text `QTextStream`
writes for a `double`, and the text the default locale gives an `int` (used by
`QString::arg` for a place marker with the `L` flag). -/
structure Env where
  applicationName : String
  utc : String
  toLower : String → String
  showReal : Dyadic → String
  localeInt : Int → String

/-- Value of `QString::arg(int)`. -/
def argInt (env : Env) (s : String) (n : Int) : String :=
  argFill s (decInt n) (env.localeInt n)

/-! ## The map model read by the exporter (libtiled) -/

/-- Modelled from the spec: `Tiled::Frame` of libtiled, one step of a tile animation;
equality is that of the pair (tileId, duration). -/
structure Frame where
  tileId : Int
  duration : Int
deriving DecidableEq, Repr

/-- Modelled from the spec: `Tiled::Tile` of libtiled, with its id and its frame sequence
(empty for a tile that is not animated). -/
structure Tile where
  id : Int
  frames : List Frame
deriving DecidableEq, Repr

/-- Modelled from the spec: `Tile::isAnimated` of libtiled, true when the tile
owns a non-empty frame sequence. -/
def Tile.isAnimated (t : Tile) : Bool := !t.frames.isEmpty

/-- Modelled from the spec: `Tiled::Tileset` of libtiled, a name and a collection of tiles
addressable by tile id. -/
structure Tileset where
  name : String
  tiles : List Tile
deriving Repr

/-- Modelled from the spec: `Tileset::tileAt` of libtiled, the tile with the
given id, `none` for `nullptr`. -/
def Tileset.tileAt (ts : Tileset) (id : Int) : Option Tile :=
  ts.tiles.find? fun t => decide (t.id = id)

/-- A non-null `const Tiled::Tile*`: the address of the owning tileset and the
id of the tile in it. -/
structure TileRef where
  tileset : Nat
  id : Int
deriving DecidableEq, Repr

/-- Modelled from the spec: `Tiled::Cell` of libtiled, an optional tileset (by address) and a
tile id. -/
structure Cell where
  tileset : Option Nat
  tileId : Int
deriving DecidableEq, Repr

/-- Modelled from the spec: `Tiled::TileLayer` of libtiled; `cellAt x y` is the
cell at column `x`, row `y`. -/
structure TileLayer where
  name : String
  offsetX : Dyadic
  offsetY : Dyadic
  opacity : Dyadic
  isVisible : Bool
  width : Nat
  height : Nat
  cellAt : Nat → Nat → Cell

/-- Modelled from the spec: `Tiled::Map` of libtiled, with the tileset object found at each
address and the ordered list of tile layers (`tileLayers()`). -/
structure TileMap where
  width : Int
  height : Int
  tileWidth : Int
  tileHeight : Int
  tilesetAt : Nat → Tileset
  tileLayers : List TileLayer

/-- The pointer `tileset->tileAt(id)` for the tileset at address `a`. -/
def tilePtr (m : TileMap) (a : Nat) (id : Int) : Option TileRef :=
  ((m.tilesetAt a).tileAt id).map fun t => TileRef.mk a t.id

/-! ## Containers -/

/-- Value of `QSet::operator<<` on a set kept as a duplicate-free list. -/
def qsetInsert (p : Option TileRef) (s : List (Option TileRef)) : List (Option TileRef) :=
  if p ∈ s then s else s ++ [p]

/-- The `QMap<Tileset*, QVector<QVector<Frame>>>` as its list of entries in
iteration order, which for a `QMap` is ascending key order (here: ascending
tileset address). -/
abbrev AnimationMap := List (Nat × List (List Frame))

/-- The entry of key `k` rewritten by `f` through the reference that
`operator[]` returns; a missing key is first inserted, at its place in key
order, with an empty vector. -/
def qmapModify (k : Nat) (f : List (List Frame) → List (List Frame)) :
    AnimationMap → AnimationMap
  | [] => [(k, f [])]
  | (k1, v) :: rest =>
    if k < k1 then (k, f []) :: (k1, v) :: rest
    else if k = k1 then (k1, f v) :: rest
    else (k1, v) :: qmapModify k f rest

/-- The value stored under key `k` (empty when the key is missing). -/
def qmapValue (k : Nat) : AnimationMap → List (List Frame)
  | [] => []
  | (k1, v) :: rest => if k = k1 then v else qmapValue k rest

/-! ## `Tmx2Qml::printHeader`, `Tmx2Qml::exportMap`, `Tmx2Qml::exportQRC` -/

/-- Lines written by `Tmx2Qml::printHeader`. -/
def printHeader (env : Env) : List String :=
  ["/*******************************************************************************",
   " * *** WARNING : DO NOT EDIT!!!",
   " * This file was generated by \"" ++ env.applicationName ++ "\" on " ++ env.utc,
   " *",
   " * For more information about " ++ env.applicationName ++ ", please visit",
   " *     https://github.com/mchiasson/" ++ env.applicationName,
   " *",
   " * For more information about Tiled Map Editor, please visit",
   " *     http://www.mapeditor.org/",
   " * Don\x27t forget to show your support the creator of Tiled Map Editor: ",
   " *     https://www.patreon.com/bjorn",
   " ******************************************************************************/",
   ""]

/-- The identifier `name().toLower().replace(" ", "_")` of a layer or tileset
name. -/
def baseId (env : Env) (name : String) : String :=
  replaceSpaces (env.toLower name)

/-- The state the traversal of `exportMap` carries: the lines written to `out`,
the set `uniqueTiles` (a member `none` is a null pointer) and `animationMap`. -/
structure ExportState where
  out : List String
  uniqueTiles : List (Option TileRef)
  animationMap : AnimationMap

/-- The search loop of lines 143-151: `false` as soon as an element of
`animations` equals `frames`, `true` when none does. -/
def newFrames (frames : List Frame) : List (List Frame) → Bool
  | [] => true
  | a :: rest => if frames = a then false else newFrames frames rest

/-- The loop of lines 161-166 over the frames of an animated tile of the
tileset at address `a`: each frame adds `tileset->tileAt(frame.tileId)` to
`uniqueTiles` and `_<tileId>` to the identifier. -/
def frameLoop (env : Env) (m : TileMap) (a : Nat) :
    List Frame → List (Option TileRef) × String → List (Option TileRef) × String
  | [], acc => acc
  | frame :: rest, (uniqueTiles, id) =>
    frameLoop env m a rest
      (qsetInsert (tilePtr m a frame.tileId) uniqueTiles, id ++ argInt env "_%1" frame.tileId)

/-- Whether an integer is a value of the 32-bit type `int`. -/
abbrev fitsInt (i : Int) : Prop :=
  -2147483648 ≤ i ∧ i ≤ 2147483647

/-- The value an `int` holds when the exact result of an operation is `i`: the
residue of `i` modulo 2^32 that lies between -2^31 and 2^31 - 1. (C++ leaves
signed overflow undefined; the usual targets wrap.) -/
def wrapInt (i : Int) : Int :=
  (i + 2147483648) % 4294967296 - 2147483648

/-- The product `a * b` of two `int`s. -/
def intMul (a b : Int) : Int :=
  wrapInt (a * b)

/-- The placement line of an animated cell (line 168). -/
def animatedLine (m : TileMap) (x y : Nat) (id : String) : String :=
  "\t\tImage\x7bx:" ++ decInt (intMul x m.tileWidth) ++ ";y:" ++ decInt (intMul y m.tileHeight)
    ++ ";source:" ++ id ++ "\x7d"

/-- The placement line of a static cell (line 175). -/
def staticLine (m : TileMap) (x y : Nat) (id : String) : String :=
  "\t\tImage\x7bx:" ++ decInt (intMul x m.tileWidth) ++ ";y:" ++ decInt (intMul y m.tileHeight)
    ++ ";source:\"" ++ id ++ ".png\"\x7d"

/-- The identifier of a static tile (lines 173-174). -/
def staticId (env : Env) (name : String) (id : Int) : String :=
  replaceSpaces (argInt env (argStr "%1_%2" (env.toLower name)) id)

/-- The body of the cell loop (lines 131-178) for the cell at column `x`,
row `y` of `layer`. -/
def cellStep (env : Env) (m : TileMap) (layer : TileLayer) (y x : Nat)
    (st : ExportState) : ExportState :=
  let cell := layer.cellAt x y
  match cell.tileset with
  | none => st
  | some a =>
    let tileset := m.tilesetAt a
    let touched := qmapModify a (fun animations => animations) st.animationMap
    match tileset.tileAt cell.tileId with
    | none => { st with animationMap := touched }
    | some tile =>
      if tile.isAnimated then
        let frames := tile.frames
        let animationMap :=
          if newFrames frames (qmapValue a touched) then
            qmapModify a (fun animations => animations ++ [frames]) touched
          else touched
        let r := frameLoop env m a frames (st.uniqueTiles, baseId env tileset.name)
        { out := st.out ++ [animatedLine m x y r.2],
          uniqueTiles := r.1,
          animationMap := animationMap }
      else
        { out := st.out ++ [staticLine m x y (staticId env tileset.name tile.id)],
          uniqueTiles := qsetInsert (some (TileRef.mk a tile.id)) st.uniqueTiles,
          animationMap := touched }

/-- The loop over the columns of row `y` (line 129). -/
def rowLoop (env : Env) (m : TileMap) (layer : TileLayer) (y : Nat)
    (st : ExportState) : ExportState :=
  (List.range layer.width).foldl (fun s x => cellStep env m layer y x s) st

/-- The loop over the rows of a layer (line 127). -/
def cellLoop (env : Env) (m : TileMap) (layer : TileLayer) (st : ExportState) : ExportState :=
  (List.range layer.height).foldl (fun s y => rowLoop env m layer y s) st

/-- The lines that open a layer block (lines 108-125). -/
def layerOpening (env : Env) (layer : TileLayer) : List String :=
  ["\tItem \x7b", "\t\tid: " ++ baseId env layer.name]
    ++ (if !qFuzzyCompareDouble layer.offsetX (Dyadic.mk 0 0)
        then ["\t\tx: " ++ env.showReal layer.offsetX] else [])
    ++ (if !qFuzzyCompareDouble layer.offsetY (Dyadic.mk 0 0)
        then ["\t\ty: " ++ env.showReal layer.offsetY] else [])
    ++ (if !qFuzzyCompareFloat layer.opacity (Dyadic.mk 1 0)
        then ["\t\topacity: " ++ env.showReal layer.opacity] else [])
    ++ (if !layer.isVisible then ["\t\tvisible: false"] else [])

/-- The body of the layer loop (lines 106-181). -/
def layerStep (env : Env) (m : TileMap) (st : ExportState) (layer : TileLayer) : ExportState :=
  let opened := { st with out := st.out ++ layerOpening env layer }
  let done := cellLoop env m layer opened
  { done with out := done.out ++ ["\t\x7d"] }

/-- The lines written before the layer loop (lines 88-102). -/
def sceneOpening (env : Env) (m : TileMap) : List String :=
  printHeader env
    ++ ["import QtQuick 2.0", "", "Flickable \x7b", "\tid: root",
        "\tcontentWidth: " ++ decInt (intMul m.width m.tileWidth),
        "\tcontentHeight: " ++ decInt (intMul m.height m.tileHeight),
        "\tboundsBehavior: Flickable.StopAtBounds"]
    ++ m.tileLayers.map fun layer =>
        "\tproperty alias " ++ baseId env layer.name ++ ": " ++ baseId env layer.name

/-- The state after the layer loop (lines 81-182). -/
def traverse (env : Env) (m : TileMap) : ExportState :=
  m.tileLayers.foldl (layerStep env m) (ExportState.mk (sceneOpening env m) [] [])

/-- The identifier of an animation: the loop of lines 197-201. -/
def animationId (env : Env) : List Frame → String → String
  | [], id => id
  | frame :: rest, id => animationId env rest (id ++ argInt env "_%1" frame.tileId)

/-- The two step lines of one frame (lines 209-210). -/
def frameSteps (id idBase : String) (frame : Frame) : List String :=
  ["\t\tScriptAction\x7bscript:" ++ id ++ "=\"" ++ idBase ++ "_" ++ decInt frame.tileId
      ++ ".png\"\x7d",
   "\t\tPauseAnimation\x7bduration:" ++ decInt frame.duration ++ "\x7d"]

/-- The animation block of one recorded frame sequence (lines 194-212). -/
def animationBlock (env : Env) (name : String) (animation : List Frame) : List String :=
  let idBase := baseId env name
  let id := animationId env animation idBase
  ["\tproperty string " ++ id ++ ": \"\"",
   "\tSequentialAnimation\x7b",
   "\t\trunning:true",
   "\t\tloops: Animation.Infinite"]
    ++ (animation.map (frameSteps id idBase)).flatten
    ++ ["\t\x7d"]

/-- The blocks of one entry of `animationMap` (lines 188-214). -/
def entryBlocks (env : Env) (m : TileMap) (entry : Nat × List (List Frame)) : List String :=
  (entry.2.map (animationBlock env (m.tilesetAt entry.1).name)).flatten

/-- The lines written by the iteration over `animationMap` (lines 184-217). -/
def trailer (env : Env) (m : TileMap) (animationMap : AnimationMap) : List String :=
  (animationMap.map (entryBlocks env m)).flatten

/-- The file name of a tile image (lines 228-229). -/
def imageAssetName (env : Env) (m : TileMap) (tile : TileRef) : String :=
  replaceSpaces
    (argInt env (argStr "%1_%2.png" (env.toLower (m.tilesetAt tile.tileset).name)) tile.id)

/-- The loop of lines 226-234 over `uniqueTiles`: one file name per member, in
the order the loop meets the members (a `QSet` fixes no order; here it is the
order of insertion, and the sorted list does not depend on it); `none` when a
member is a null pointer, which the loop dereferences. -/
def assetLoop (env : Env) (m : TileMap) : List (Option TileRef) → Option (List String)
  | [] => some []
  | none :: _ => none
  | some tile :: rest =>
    match assetLoop env m rest with
    | none => none
    | some names => some (imageAssetName env m tile :: names)

/-- The list `assets` handed to `exportQRC` (lines 222-238), `none` when the
loop over `uniqueTiles` dereferences a null pointer. -/
def assetList (env : Env) (m : TileMap) (mapPrefix : String)
    (uniqueTiles : List (Option TileRef)) : Option (List String) :=
  match assetLoop env m uniqueTiles with
  | none => none
  | some names => some (qSort (argStr "%1Map.qml" mapPrefix :: names))

/-- Lines written by `Tmx2Qml::exportQRC` to `<mapPrefix>Map.qrc` once the file
is open. -/
def exportQRC (env : Env) (assets : List String) : List String :=
  ["<!--", ""] ++ printHeader env
    ++ ["-->", "<RCC>", "    <qresource prefix=\"/\">"]
    ++ assets.map (fun asset => "        <file>" ++ asset ++ "</file>")
    ++ ["    </qresource>", "</RCC>"]

/-- What `Tmx2Qml::exportMap` produces: the lines of the scene document, the
list handed to `exportQRC` and the lines of the manifest (both `none` when the
asset loop dereferences a null pointer). -/
structure Exported where
  scene : List String
  assets : Option (List String)
  manifest : Option (List String)

/-- The lines of the scene document (lines 88-219). -/
def sceneLines (env : Env) (m : TileMap) : List String :=
  (traverse env m).out ++ trailer env m (traverse env m).animationMap ++ ["\x7d"]

/-- The list of file names `exportMap` hands to `exportQRC`. -/
def manifestEntries (env : Env) (m : TileMap) (mapPrefix : String) : Option (List String) :=
  assetList env m mapPrefix (traverse env m).uniqueTiles

/-- `Tmx2Qml::exportMap`. -/
def exportMap (env : Env) (mapPrefix : String) (m : TileMap) : Exported :=
  { scene := sceneLines env m,
    assets := manifestEntries env m mapPrefix,
    manifest := (manifestEntries env m mapPrefix).map (exportQRC env) }

/-! ## The traversal read cell by cell -/

/-- The cells of a layer as (row, column) pairs, listed row by row and, in a
row, by ascending column. -/
def cellsOf (layer : TileLayer) : List (Nat × Nat) :=
  (List.range layer.height).flatMap fun y => (List.range layer.width).map fun x => (y, x)

/-- The placement line of the cell at row `y`, column `x`, if the cell has a
tileset and its tile id resolves. -/
def cellLine (env : Env) (m : TileMap) (layer : TileLayer) (y x : Nat) : Option String :=
  match (layer.cellAt x y).tileset with
  | none => none
  | some a =>
    match (m.tilesetAt a).tileAt (layer.cellAt x y).tileId with
    | none => none
    | some tile =>
      if tile.isAnimated then
        some (animatedLine m x y (animationId env tile.frames (baseId env (m.tilesetAt a).name)))
      else some (staticLine m x y (staticId env (m.tilesetAt a).name tile.id))

/-- The pointers the cell at row `y`, column `x` hands to `uniqueTiles`, in order. -/
def cellPtrs (m : TileMap) (layer : TileLayer) (y x : Nat) : List (Option TileRef) :=
  match (layer.cellAt x y).tileset with
  | none => []
  | some a =>
    match (m.tilesetAt a).tileAt (layer.cellAt x y).tileId with
    | none => []
    | some tile =>
      if tile.isAnimated then tile.frames.map fun frame => tilePtr m a frame.tileId
      else [some (TileRef.mk a tile.id)]

/-- What the cell at row `y`, column `x` brings to `animationMap`: nothing
without a tileset, else the tileset's address and, for a resolved animated
tile, its frame sequence. -/
def cellAnim (m : TileMap) (layer : TileLayer) (y x : Nat) : Option (Nat × Option (List Frame)) :=
  match (layer.cellAt x y).tileset with
  | none => none
  | some a =>
    match (m.tilesetAt a).tileAt (layer.cellAt x y).tileId with
    | none => some (a, none)
    | some tile => if tile.isAnimated then some (a, some tile.frames) else some (a, none)

/-- All pointers of a list inserted into the set, in order. -/
def insertAll (ps : List (Option TileRef)) (u : List (Option TileRef)) : List (Option TileRef) :=
  ps.foldl (fun s p => qsetInsert p s) u

/-- The change of `animationMap` by one cell: the entry of the cell's tileset is
created if missing, and a frame sequence not yet in it is appended. -/
def recordAnim : Option (Nat × Option (List Frame)) → AnimationMap → AnimationMap
  | none, am => am
  | some (a, none), am => qmapModify a (fun animations => animations) am
  | some (a, some frames), am =>
    if newFrames frames (qmapValue a (qmapModify a (fun animations => animations) am)) then
      qmapModify a (fun animations => animations ++ [frames])
        (qmapModify a (fun animations => animations) am)
    else qmapModify a (fun animations => animations) am

/-- The lines of one layer block. -/
def layerBlock (env : Env) (m : TileMap) (layer : TileLayer) : List String :=
  layerOpening env layer
    ++ (cellsOf layer).filterMap (fun c => cellLine env m layer c.1 c.2)
    ++ ["\t\x7d"]

/-- The cells of a layer that get a placement line, in traversal order. -/
def placedCells (env : Env) (m : TileMap) (layer : TileLayer) : List (Nat × Nat) :=
  (cellsOf layer).filter fun c => (cellLine env m layer c.1 c.2).isSome

/-- Row-major order on (row, column) pairs: a lower row first, and in one row
the lower column first. -/
def rowMajorLt (c d : Nat × Nat) : Prop :=
  c.1 < d.1 ∨ (c.1 = d.1 ∧ c.2 < d.2)

/-- A list of cell contributions applied to `animationMap`, in order. -/
def recordAll (rs : List (Option (Nat × Option (List Frame)))) (am : AnimationMap) :
    AnimationMap :=
  rs.foldl (fun acc r => recordAnim r acc) am

/-- The pointers the cells of a layer hand to `uniqueTiles`, in traversal order. -/
def layerPtrs (m : TileMap) (layer : TileLayer) : List (Option TileRef) :=
  (cellsOf layer).flatMap fun c => cellPtrs m layer c.1 c.2

/-- The contributions of the cells of a layer to `animationMap`, in traversal
order. -/
def layerAnims (m : TileMap) (layer : TileLayer) : List (Option (Nat × Option (List Frame))) :=
  (cellsOf layer).map fun c => cellAnim m layer c.1 c.2

/-- The entries of the map are in strictly ascending key order. -/
def keysSorted (am : AnimationMap) : Prop :=
  am.Pairwise fun e1 e2 => e1.1 < e2.1

/-- One frame sequence offered to the list of recorded sequences: appended
when no recorded sequence equals it. -/
def record (animations : List (List Frame)) (frames : List Frame) : List (List Frame) :=
  if newFrames frames animations then animations ++ [frames] else animations

/-- The frame sequences that the cell contributions `rs` bring for the tileset
at address `a`, in order. -/
def seqsOf (a : Nat) (rs : List (Option (Nat × Option (List Frame)))) : List (List Frame) :=
  rs.filterMap fun r =>
    match r with
    | some (b, some frames) => if b = a then some frames else none
    | _ => none

/-- The frame sequences of the animated cells of the tileset at address `a`, in
layer / row / column traversal order. -/
def animatedSeqs (m : TileMap) (a : Nat) : List (List Frame) :=
  seqsOf a (m.tileLayers.flatMap (layerAnims m))

/-- A list with every element that equals an earlier one removed. -/
def removeRepeats {α : Type} [DecidableEq α] : List α → List α
  | [] => []
  | x :: xs => x :: (removeRepeats xs).filter fun y => decide (y ≠ x)

/-- The animation blocks of the trailer in emission order, each with the
address of its tileset. -/
def trailerBlocks (env : Env) (m : TileMap) (am : AnimationMap) : List (Nat × List String) :=
  am.flatMap fun e => e.2.map fun animation =>
    (e.1, animationBlock env (m.tilesetAt e.1).name animation)

/-- The number a list of decimal digits denotes, continuing from `acc`. -/
def digitsValue (acc : Nat) (cs : List Char) : Nat :=
  cs.foldl (fun a c => 10 * a + (c.toNat - 48)) acc

/-! ## A concrete environment and the spec's example map -/

/-- Lower-casing on the ASCII letters. -/
def asciiLower (s : String) : String :=
  String.mk (s.data.map Char.toLower)

/-- An environment with ASCII lower-casing. -/
def stdEnv : Env :=
  { applicationName := "tmx2qml",
    utc := "",
    toLower := asciiLower,
    showReal := fun _ => "",
    localeInt := decInt }

/-- The tileset "Base" of the example: static tiles 3, 5, 6 and tile 7 animated
with frames (5,100), (6,100). -/
def baseTileset : Tileset :=
  { name := "Base",
    tiles := [Tile.mk 3 [], Tile.mk 5 [], Tile.mk 6 [],
              Tile.mk 7 [Frame.mk 5 100, Frame.mk 6 100]] }

/-- The layer "Ground Layer" of the example: 2x1 cells, tile 3 at (0,0) and the
animated tile 7 at (1,0). -/
def groundLayer : TileLayer :=
  { name := "Ground Layer",
    offsetX := Dyadic.mk 0 0, offsetY := Dyadic.mk 0 0, opacity := Dyadic.mk 1 0,
    isVisible := true, width := 2, height := 1,
    cellAt := fun x _ => if x = 0 then Cell.mk (some 0) 3 else Cell.mk (some 0) 7 }

/-- The example map of the spec: 2x1 tiles of 16x16 pixels. -/
def exampleMap : TileMap :=
  { width := 2, height := 1, tileWidth := 16, tileHeight := 16,
    tilesetAt := fun _ => baseTileset,
    tileLayers := [groundLayer] }

/-- A tileset with the given name: tile 1 animated with the single frame
(2,100), tile 2 static. -/
def blinkTileset (name : String) : Tileset :=
  { name := name, tiles := [Tile.mk 1 [Frame.mk 2 100], Tile.mk 2 []] }

/-- A 2x1 layer showing tile 1 of the tileset at address 2 in cell (0,0) and
tile 1 of the tileset at address 1 in cell (1,0). -/
def orderLayer : TileLayer :=
  { name := "L",
    offsetX := Dyadic.mk 0 0, offsetY := Dyadic.mk 0 0, opacity := Dyadic.mk 1 0,
    isVisible := true, width := 2, height := 1,
    cellAt := fun x _ => if x = 0 then Cell.mk (some 2) 1 else Cell.mk (some 1) 1 }

/-- A map whose first animated cell belongs to tileset "Alpha", stored at the
higher address 2; tileset "Beta" is stored at address 1. -/
def orderMap : TileMap :=
  { width := 2, height := 1, tileWidth := 16, tileHeight := 16,
    tilesetAt := fun a => if a = 2 then blinkTileset "Alpha" else blinkTileset "Beta",
    tileLayers := [orderLayer] }

/-- A map with two tilesets whose names normalise to the same identifier:
"Base" at address 0 and "base" at address 1, each with the static tile 3; cell
(0,0) shows tile 3 of the first and cell (1,0) tile 3 of the second. -/
def dupMap : TileMap :=
  { width := 2, height := 1, tileWidth := 16, tileHeight := 16,
    tilesetAt := fun a =>
      if a = 0 then Tileset.mk "Base" [Tile.mk 3 []] else Tileset.mk "base" [Tile.mk 3 []],
    tileLayers :=
      [{ name := "L",
         offsetX := Dyadic.mk 0 0, offsetY := Dyadic.mk 0 0, opacity := Dyadic.mk 1 0,
         isVisible := true, width := 2, height := 1,
         cellAt := fun x _ => if x = 0 then Cell.mk (some 0) 3 else Cell.mk (some 1) 3 }] }

/-- A one-layer map over a single tileset whose cell (x, 0) shows the tile
with id `ids x`. -/
def stripMap (tileset : Tileset) (width : Nat) (ids : Nat → Int) : TileMap :=
  { width := width, height := 1, tileWidth := 16, tileHeight := 16,
    tilesetAt := fun _ => tileset,
    tileLayers :=
      [{ name := "L",
         offsetX := Dyadic.mk 0 0, offsetY := Dyadic.mk 0 0, opacity := Dyadic.mk 1 0,
         isVisible := true, width := width, height := 1,
         cellAt := fun x _ => Cell.mk (some 0) (ids x) }] }

/-- Tileset "Base" with two animated tiles whose frame sequences differ in the
duration only: tile 1 with (5,100), tile 2 with (5,200); cell (0,0) shows tile
1 and cell (1,0) tile 2. -/
def clashMap : TileMap :=
  stripMap
    { name := "Base",
      tiles := [Tile.mk 1 [Frame.mk 5 100], Tile.mk 2 [Frame.mk 5 200], Tile.mk 5 []] }
    2 (fun x => if x = 0 then 1 else 2)

/-- A tileset named "%1" with the static tile 5 and tile 7 animated with the
frame (5,100), which resolves; the single cell shows tile 7. -/
def markerMap : TileMap :=
  stripMap { name := "%1", tiles := [Tile.mk 5 [], Tile.mk 7 [Frame.mk 5 100]] } 1 (fun _ => 7)

/-- The text the spec gives an animation identifier after the tileset
identifier: "_" and the decimal tile id of every frame, in order. -/
def tileIdSuffix : List Frame → String
  | [] => ""
  | frame :: rest => "_" ++ decInt frame.tileId ++ tileIdSuffix rest

/-- A 2x1 layer whose cell (0,0) shows tile 1 and whose cell (1,0) shows tile 2
of the tileset at address 0. -/
def twinLayer : TileLayer :=
  { name := "L",
    offsetX := Dyadic.mk 0 0, offsetY := Dyadic.mk 0 0, opacity := Dyadic.mk 1 0,
    isVisible := true, width := 2, height := 1,
    cellAt := fun x _ => if x = 0 then Cell.mk (some 0) 1 else Cell.mk (some 0) 2 }

/-- A map with two animated tiles that carry the same frame sequence
[(5,100)]: tiles 1 and 2 of tileset "Base", shown by the cells of `twinLayer`. -/
def twinMap : TileMap :=
  { width := 2, height := 1, tileWidth := 16, tileHeight := 16,
    tilesetAt := fun _ =>
      { name := "Base",
        tiles := [Tile.mk 1 [Frame.mk 5 100], Tile.mk 2 [Frame.mk 5 100], Tile.mk 5 []] },
    tileLayers := [twinLayer] }

/-- Whether the cell at row `y`, column `x` has a tileset and a tile id that
resolves in it. -/
def cellResolves (m : TileMap) (layer : TileLayer) (y x : Nat) : Bool :=
  match (layer.cellAt x y).tileset with
  | none => false
  | some a => ((m.tilesetAt a).tileAt (layer.cellAt x y).tileId).isSome

/-- A 3x1 layer over the tileset at address 0: cell (0,0) has no tileset, cell
(1,0) names tile 99, cell (2,0) shows tile 3. -/
def gapLayer : TileLayer :=
  { name := "L",
    offsetX := Dyadic.mk 0 0, offsetY := Dyadic.mk 0 0, opacity := Dyadic.mk 1 0,
    isVisible := true, width := 3, height := 1,
    cellAt := fun x _ =>
      if x = 0 then Cell.mk none 0 else if x = 1 then Cell.mk (some 0) 99
      else Cell.mk (some 0) 3 }

/-- The tileset "Base" of the example under the cells of `gapLayer`; tile 99
does not exist in it. -/
def gapMap : TileMap :=
  { width := 3, height := 1, tileWidth := 16, tileHeight := 16,
    tilesetAt := fun _ => baseTileset,
    tileLayers := [gapLayer] }

/-- The (tileset name, tile id) pair of every member of an asset set, in the
order of the list that holds the set; `none` for a null pointer. -/
def memberKeys (m : TileMap) (u : List (Option TileRef)) : List (Option (String × Int)) :=
  u.map (Option.map fun tile => ((m.tilesetAt tile.tileset).name, tile.id))

/-- The file name lines 228-229 compute from a tileset name and a tile id. -/
def keyFileName (env : Env) (k : String × Int) : String :=
  replaceSpaces (argInt env (argStr "%1_%2.png" (env.toLower k.1)) k.2)

/-- The elements of a list of optional values, if none is missing. -/
def allSome {α : Type} : List (Option α) → Option (List α)
  | [] => some []
  | none :: _ => none
  | some a :: rest =>
    match allSome rest with
    | none => none
    | some as => some (a :: as)

/-- Two results of `allSome` agree up to the order of their elements. -/
def sameUpToOrder {α : Type} (o1 o2 : Option (List α)) : Prop :=
  match o1, o2 with
  | none, none => True
  | some a, some b => a.Perm b
  | _, _ => False

/-- Two tilesets with the same name "base", stored at different addresses,
each with the static tile 3; cell (0,0) shows tile 3 of the tileset at address
0 and cell (1,0) tile 3 of the tileset at address 1. -/
def sameNameMap : TileMap :=
  { width := 2, height := 1, tileWidth := 16, tileHeight := 16,
    tilesetAt := fun _ => Tileset.mk "base" [Tile.mk 3 []],
    tileLayers :=
      [{ name := "L",
         offsetX := Dyadic.mk 0 0, offsetY := Dyadic.mk 0 0, opacity := Dyadic.mk 1 0,
         isVisible := true, width := 2, height := 1,
         cellAt := fun x _ => if x = 0 then Cell.mk (some 0) 3 else Cell.mk (some 1) 3 }] }

/-- One tileset "base" with the static tile 3, shown by a single cell. -/
def singleMap : TileMap :=
  stripMap (Tileset.mk "base" [Tile.mk 3 []]) 1 (fun _ => 3)

/-- The example map with its two cells exchanged: the animated tile 7 in cell
(0,0) and the static tile 3 in cell (1,0). -/
def mirrorMap : TileMap :=
  { width := 2, height := 1, tileWidth := 16, tileHeight := 16,
    tilesetAt := fun _ => baseTileset,
    tileLayers :=
      [{ name := "Ground Layer",
         offsetX := Dyadic.mk 0 0, offsetY := Dyadic.mk 0 0, opacity := Dyadic.mk 1 0,
         isVisible := true, width := 2, height := 1,
         cellAt := fun x _ => if x = 0 then Cell.mk (some 0) 7 else Cell.mk (some 0) 3 }] }

/-- A layer whose offset x is 2^-50 (about 8.9e-16) and whose other attributes
have their default values. -/
def noiseLayer : TileLayer :=
  { name := "L",
    offsetX := Dyadic.mk 1 50, offsetY := Dyadic.mk 0 0, opacity := Dyadic.mk 1 0,
    isVisible := true, width := 0, height := 0,
    cellAt := fun _ _ => Cell.mk none 0 }

/-! ## `Tmx2Qml::onLaunched`: the map prefix and the file names -/

/-- Value of `QString::split(sep)` for a one-character separator (empty parts
are kept, a text without the separator is one part). -/
def qSplit (sep : Char) : List Char → List (List Char)
  | [] => [[]]
  | c :: cs =>
    if c = sep then [] :: qSplit sep cs
    else
      match qSplit sep cs with
      | [] => [[c]]
      | part :: parts => (c :: part) :: parts

/-- The text `mapPath.split("/").last().split(".").at(0)` of line 68. -/
def fileStem (mapPath : String) : List Char :=
  ((qSplit '.' ((qSplit '/' mapPath.data).getLast?.getD [])).head?).getD []

/-- The text `QString(mapPrefix[0]).toUpper()` for a prefix that starts with the
character `c`: the upper-case form of the first `QChar`. A character beyond
the basic plane takes two `QChar`s, the first of which is a surrogate, which
has no upper-case form other than itself, so the pair stays as it is. -/
def firstUnitUpper (toUpper : String → String) (c : Char) : String :=
  if c.toNat < 65536 then toUpper (String.singleton c) else String.singleton c

/-- Line 69, `mapPrefix.replace(0, 1, QString(mapPrefix[0]).toUpper())`: `none`
for an empty prefix, where `mapPrefix[0]` is out of range. -/
def upperFirst (toUpper : String → String) : List Char → Option String
  | [] => none
  | c :: rest => some (firstUnitUpper toUpper c ++ String.mk rest)

/-- The map prefix that `Tmx2Qml::onLaunched` computes from the path of the map
(lines 68-69), with Qt's upper-casing as a parameter. -/
def mapPrefixOf (toUpper : String → String) (mapPath : String) : Option String :=
  upperFirst toUpper (fileStem mapPath)

/-- The name of the scene file (line 84). -/
def sceneFileName (mapPrefix : String) : String :=
  argStr "%1Map.qml" mapPrefix

/-- The name of the manifest file (line 243). -/
def manifestFileName (mapPrefix : String) : String :=
  argStr "%1Map.qrc" mapPrefix

/-- Upper-casing on the ASCII letters. -/
def asciiUpper (s : String) : String :=
  String.mk (s.data.map Char.toUpper)

/-- A layer of 4097 columns and one row whose every cell shows tile 3 of the
tileset at address 0. -/
def wideLayer : TileLayer :=
  { name := "L",
    offsetX := Dyadic.mk 0 0, offsetY := Dyadic.mk 0 0, opacity := Dyadic.mk 1 0,
    isVisible := true, width := 4097, height := 1,
    cellAt := fun _ _ => Cell.mk (some 0) 3 }

/-- A map of 4097 x 1 tiles that are 1048576 pixels wide, over the tileset
"Base" of the example. -/
def wideMap : TileMap :=
  { width := 4097, height := 1, tileWidth := 1048576, tileHeight := 16,
    tilesetAt := fun _ => baseTileset,
    tileLayers := [wideLayer] }

/-- Upper-casing of the ASCII letters and of the small letters of the Deseret
block (U+10428 to U+1044F, whose capitals are 40 places lower). -/
def deseretUpper (s : String) : String :=
  String.mk (s.data.map fun c =>
    if 66600 ≤ c.toNat ∧ c.toNat ≤ 66639 then Char.ofNat (c.toNat - 40) else c.toUpper)

/-! # Properties -/

/-! ## Ordinal comparison and sorting -/

theorem unitsLess_irrefl (a : List Nat) : unitsLess a a = false := by
  induction a with
  | nil => rfl
  | cons x xs ih => simp [unitsLess, ih]

theorem unitsLess_asymm : ∀ a b : List Nat, unitsLess a b = true → unitsLess b a = false
  | _, [], h => by simp [unitsLess] at h
  | [], _ :: _, _ => by simp [unitsLess]
  | x :: xs, y :: ys, h => by
    simp only [unitsLess] at h ⊢
    split_ifs at h ⊢ <;> first | omega | rfl | exact unitsLess_asymm xs ys h

theorem unitsLess_trans :
    ∀ a b c : List Nat, unitsLess a b = true → unitsLess b c = true → unitsLess a c = true
  | _, _, [], _, h2 => by simp [unitsLess] at h2
  | _, [], _ :: _, h1, _ => by simp [unitsLess] at h1
  | [], _ :: _, _ :: _, _, _ => by simp [unitsLess]
  | x :: xs, y :: ys, z :: zs, h1, h2 => by
    simp only [unitsLess] at h1 h2 ⊢
    split_ifs at h1 h2 ⊢ <;>
      first | omega | rfl | exact unitsLess_trans xs ys zs h1 h2

theorem mem_qInsert (a x : String) : ∀ l : List String, x ∈ qInsert a l ↔ x = a ∨ x ∈ l
  | [] => by simp [qInsert]
  | b :: l => by
    unfold qInsert
    split_ifs
    · simp
    · simp only [List.mem_cons, mem_qInsert a x l]
      tauto

theorem qInsert_perm (a : String) : ∀ l : List String, (qInsert a l).Perm (a :: l)
  | [] => by simp [qInsert]
  | b :: l => by
    unfold qInsert
    split_ifs
    · exact List.Perm.refl _
    · exact ((qInsert_perm a l).cons b).trans (List.Perm.swap a b l)

theorem qSort_perm : ∀ l : List String, (qSort l).Perm l
  | [] => List.Perm.refl _
  | a :: l => (qInsert_perm a (qSort l)).trans ((qSort_perm l).cons a)

theorem mem_qSort (x : String) (l : List String) : x ∈ qSort l ↔ x ∈ l :=
  (qSort_perm l).mem_iff

theorem qInsert_sorted (a : String) :
    ∀ l : List String, l.Pairwise (fun x y => qLess y x = false) →
      (qInsert a l).Pairwise (fun x y => qLess y x = false)
  | [], _ => by simp [qInsert]
  | b :: l, h => by
    have hb : ∀ x ∈ l, qLess x b = false := fun x hx => List.rel_of_pairwise_cons h hx
    have hl := List.Pairwise.of_cons h
    unfold qInsert
    split_ifs with hab
    · refine List.Pairwise.cons ?_ h
      intro x hx
      rcases List.mem_cons.1 hx with rfl | hx
      · exact unitsLess_asymm _ _ hab
      · have hxb := hb x hx
        cases hxa : qLess x a with
        | false => rfl
        | true =>
          have := unitsLess_trans _ _ _ hxa hab
          simp only [qLess] at hxb
          rw [hxb] at this
          cases this
    · refine List.Pairwise.cons ?_ (qInsert_sorted a l hl)
      intro x hx
      rcases (mem_qInsert a x l).1 hx with rfl | hx
      · simpa using hab
      · exact hb x hx

theorem qSort_sorted : ∀ l : List String, (qSort l).Pairwise (fun x y => qLess y x = false)
  | [] => List.Pairwise.nil
  | a :: l => qInsert_sorted a (qSort l) (qSort_sorted l)

theorem char_toNat_inj (c d : Char) (h : c.toNat = d.toNat) : c = d := by
  rw [← Char.ofNat_toNat c, ← Char.ofNat_toNat d, h]

theorem char_toNat_valid (c : Char) :
    c.toNat < 55296 ∨ (57343 < c.toNat ∧ c.toNat < 1114112) := c.valid

theorem charUnits_append_inj (c d : Char) (xs ys : List Nat)
    (h : charUnits c ++ xs = charUnits d ++ ys) : c = d ∧ xs = ys := by
  have hc := char_toNat_valid c
  have hd := char_toNat_valid d
  unfold charUnits at h
  split_ifs at h with h1 h2 h2
  · simp only [List.singleton_append, List.cons.injEq] at h
    exact ⟨char_toNat_inj c d h.1, h.2⟩
  · simp only [List.singleton_append, List.cons_append, List.nil_append, List.cons.injEq] at h
    omega
  · simp only [List.singleton_append, List.cons_append, List.nil_append, List.cons.injEq] at h
    omega
  · simp only [List.cons_append, List.nil_append, List.cons.injEq] at h
    exact ⟨char_toNat_inj c d (by omega), h.2.2⟩

theorem charUnits_ne_nil (c : Char) : charUnits c ≠ [] := by
  unfold charUnits
  split_ifs <;> simp

theorem codeUnits_data_inj :
    ∀ a b : List Char, (a.map charUnits).flatten = (b.map charUnits).flatten → a = b
  | [], [], _ => rfl
  | [], d :: b, h => by
    simp only [List.map_nil, List.flatten_nil, List.map_cons, List.flatten_cons] at h
    have := charUnits_ne_nil d
    cases hd : charUnits d with
    | nil => exact absurd hd this
    | cons u us =>
      rw [hd] at h
      cases h
  | c :: a, [], h => by
    simp only [List.map_nil, List.flatten_nil, List.map_cons, List.flatten_cons] at h
    have := charUnits_ne_nil c
    cases hc : charUnits c with
    | nil => exact absurd hc this
    | cons u us =>
      rw [hc] at h
      cases h
  | c :: a, d :: b, h => by
    simp only [List.map_cons, List.flatten_cons] at h
    obtain ⟨h1, h2⟩ := charUnits_append_inj c d _ _ h
    rw [h1, codeUnits_data_inj a b h2]

/-- Two strings with the same code units are the same string. -/
theorem codeUnits_injective (a b : String) (h : codeUnits a = codeUnits b) : a = b :=
  String.ext (codeUnits_data_inj _ _ h)

theorem unitsLess_total :
    ∀ a b : List Nat, unitsLess a b = false → unitsLess b a = false → a = b
  | [], [], _, _ => rfl
  | [], _ :: _, h, _ => by simp [unitsLess] at h
  | _ :: _, [], _, h => by simp [unitsLess] at h
  | x :: xs, y :: ys, h1, h2 => by
    simp only [unitsLess] at h1 h2
    by_cases hxy : x < y
    · simp [hxy] at h1
    · by_cases hyx : y < x
      · simp [hyx] at h2
      · simp only [hxy, hyx, if_false] at h1 h2
        have e : x = y := by omega
        rw [e, unitsLess_total xs ys h1 h2]

/-- The ordinal order is total on strings: two strings neither of which is less
than the other are equal. -/
theorem qLess_total (a b : String) (h1 : qLess a b = false) (h2 : qLess b a = false) :
    a = b :=
  codeUnits_injective a b (unitsLess_total _ _ h1 h2)

/-- A list in ordinal order is determined by its elements: whatever order the
elements are handed to the sort in, and whatever sorting procedure is used,
the sorted list is the same. -/
theorem sorted_perm_unique (l1 l2 : List String) (hp : l1.Perm l2)
    (h1 : l1.Pairwise (fun a b => qLess b a = false))
    (h2 : l2.Pairwise (fun a b => qLess b a = false)) : l1 = l2 := by
  induction l1 generalizing l2 with
  | nil => exact (List.Perm.nil_eq hp)
  | cons a l1 ih =>
    cases l2 with
    | nil => exact absurd hp.length_eq (by simp)
    | cons b l2 =>
      have ha : ∀ x ∈ l1, qLess x a = false := fun x hx => List.rel_of_pairwise_cons h1 hx
      have hb : ∀ x ∈ l2, qLess x b = false := fun x hx => List.rel_of_pairwise_cons h2 hx
      have hab : a = b := by
        have hain : a ∈ b :: l2 := hp.subset (List.mem_cons_self _ _)
        have hbin : b ∈ a :: l1 := hp.symm.subset (List.mem_cons_self _ _)
        rcases List.mem_cons.1 hain with e | hain
        · exact e
        · rcases List.mem_cons.1 hbin with e | hbin
          · exact e.symm
          · exact qLess_total a b (hb a hain) (ha b hbin)
      subst hab
      rw [ih l2 (List.Perm.cons_inv hp) (List.Pairwise.of_cons h1) (List.Pairwise.of_cons h2)]

theorem qSort_of_perm (l1 l2 : List String) (hp : l1.Perm l2) : qSort l1 = qSort l2 :=
  sorted_perm_unique _ _ (((qSort_perm l1).trans hp).trans (qSort_perm l2).symm)
    (qSort_sorted l1) (qSort_sorted l2)

/-! ## `QString::arg` on the templates of the exporter -/

theorem scanFrom_append_underscore (rest : List Char) :
    ∀ (cs : List Char) (mode : ScanMode),
      ∃ ps, scanFrom mode (cs ++ '_' :: rest)
        = ps ++ ArgPiece.text '_' :: scanFrom ScanMode.plain rest
  | [], mode => by
    have hd : digitValue '_' = none := by decide
    cases mode with
    | plain => exact ⟨[], by simp [scanFrom, resumeAt]⟩
    | percent => exact ⟨[ArgPiece.text '%'], by simp [scanFrom, resumeAt, hd]⟩
    | percentL =>
      exact ⟨[ArgPiece.text '%', ArgPiece.text 'L'], by simp [scanFrom, resumeAt, hd]⟩
    | digit e isLocale raw =>
      exact ⟨[ArgPiece.marker e isLocale raw], by simp [scanFrom, resumeAt, hd]⟩
  | c :: cs, mode => by
    have ih := scanFrom_append_underscore rest cs
    have hcons : ∀ (q : ArgPiece) (md : ScanMode),
        (∃ ps, scanFrom md (cs ++ '_' :: rest)
          = ps ++ ArgPiece.text '_' :: scanFrom ScanMode.plain rest) →
        ∃ ps, q :: scanFrom md (cs ++ '_' :: rest)
          = ps ++ ArgPiece.text '_' :: scanFrom ScanMode.plain rest := by
      rintro q md ⟨ps, h⟩
      exact ⟨q :: ps, by rw [h]; rfl⟩
    have hresume : ∃ ps,
        resumeAt c (scanFrom ScanMode.percent (cs ++ '_' :: rest))
            (scanFrom ScanMode.plain (cs ++ '_' :: rest))
          = ps ++ ArgPiece.text '_' :: scanFrom ScanMode.plain rest := by
      unfold resumeAt
      split_ifs
      · exact ih ScanMode.percent
      · exact hcons _ _ (ih ScanMode.plain)
    cases mode with
    | plain =>
      simp only [List.cons_append, scanFrom, List.append_eq]
      exact hresume
    | percent =>
      simp only [List.cons_append, scanFrom, List.append_eq]
      split_ifs
      · exact ih ScanMode.percentL
      · cases digitValue c with
        | some e => exact ih _
        | none =>
          obtain ⟨ps, h⟩ := hresume
          exact ⟨ArgPiece.text '%' :: ps, by simp only [h]; rfl⟩
    | percentL =>
      simp only [List.cons_append, scanFrom, List.append_eq]
      cases digitValue c with
      | some e => exact ih _
      | none =>
        obtain ⟨ps, h⟩ := hresume
        exact ⟨ArgPiece.text '%' :: ArgPiece.text 'L' :: ps, by simp only [h]; rfl⟩
    | digit e isLocale raw =>
      simp only [List.cons_append, scanFrom, List.append_eq]
      cases digitValue c with
      | some e2 => exact hcons _ _ (ih ScanMode.plain)
      | none =>
        obtain ⟨ps, h⟩ := hresume
        exact ⟨ArgPiece.marker e isLocale raw :: ps, by simp only [h]; rfl⟩

theorem scanFrom_plain_append (rest : List Char) :
    ∀ cs : List Char, '%' ∉ cs →
      scanFrom ScanMode.plain (cs ++ rest)
        = cs.map ArgPiece.text ++ scanFrom ScanMode.plain rest
  | [], _ => rfl
  | c :: cs, h => by
    have hc : c ≠ '%' := fun e => h (e ▸ List.mem_cons_self _ _)
    have hcs : '%' ∉ cs := fun e => h (List.mem_cons_of_mem _ e)
    simp only [List.cons_append, scanFrom, resumeAt, if_neg hc, List.map_cons, List.append_eq]
    rw [scanFrom_plain_append rest cs hcs]

theorem minMarker_append_marker (n : Nat) (isLocale : Bool) (raw : List Char)
    (qs : List ArgPiece) :
    ∀ ps : List ArgPiece, ∃ k, minMarker (ps ++ ArgPiece.marker n isLocale raw :: qs) = some k
  | [] => by
    simp only [List.nil_append, minMarker]
    cases minMarker qs with
    | none => exact ⟨n, rfl⟩
    | some k => exact ⟨min n k, rfl⟩
  | ArgPiece.text c :: ps => by
    simp only [List.cons_append, minMarker, List.append_eq]
    exact minMarker_append_marker n isLocale raw qs ps
  | ArgPiece.marker n1 l1 raw1 :: ps => by
    obtain ⟨k, hk⟩ := minMarker_append_marker n isLocale raw qs ps
    simp only [List.cons_append, minMarker, List.append_eq, hk]
    exact ⟨min n1 k, rfl⟩

theorem minMarker_map_text : ∀ cs : List Char, ∀ qs : List ArgPiece,
    minMarker (cs.map ArgPiece.text ++ qs) = minMarker qs
  | [], _ => rfl
  | c :: cs, qs => by
    simp only [List.map_cons, List.cons_append, minMarker, List.append_eq]
    exact minMarker_map_text cs qs

theorem flatten_fill_text (k : Nat) (a la : List Char) :
    ∀ cs : List Char, ((cs.map ArgPiece.text).map (fillPiece k a la)).flatten = cs
  | [] => rfl
  | c :: cs => by
    simp only [List.map_cons, List.flatten_cons, fillPiece, List.singleton_append]
    rw [flatten_fill_text k a la cs]

/-- A single `arg` on "%1Map.qml" puts the argument in front of "Map.qml". -/
theorem argStr_mapFile (mapPrefix : String) :
    argStr "%1Map.qml" mapPrefix = mapPrefix ++ "Map.qml" := by
  apply String.ext
  have h : scanArg "%1Map.qml".data
      = [ArgPiece.marker 1 false ['%', '1'], ArgPiece.text 'M', ArgPiece.text 'a',
         ArgPiece.text 'p', ArgPiece.text '.', ArgPiece.text 'q', ArgPiece.text 'm',
         ArgPiece.text 'l'] := by decide
  simp [argStr, argFill, h, minMarker, fillPiece]

/-- The first `arg` on "%1_%2.png" puts the argument in front of "_%2.png". -/
theorem argStr_pngTemplate (a : String) :
    argStr "%1_%2.png" a = a ++ "_%2.png" := by
  apply String.ext
  have h : scanArg "%1_%2.png".data
      = [ArgPiece.marker 1 false ['%', '1'], ArgPiece.text '_',
         ArgPiece.marker 2 false ['%', '2'], ArgPiece.text '.', ArgPiece.text 'p',
         ArgPiece.text 'n', ArgPiece.text 'g'] := by decide
  simp [argStr, argFill, h, minMarker, fillPiece]

/-- The first `arg` on "%1_%2" puts the argument in front of "_%2". -/
theorem argStr_idTemplate (a : String) :
    argStr "%1_%2" a = a ++ "_%2" := by
  apply String.ext
  have h : scanArg "%1_%2".data
      = [ArgPiece.marker 1 false ['%', '1'], ArgPiece.text '_',
         ArgPiece.marker 2 false ['%', '2']] := by decide
  simp [argStr, argFill, h, minMarker, fillPiece]

/-- Whatever the tileset name holds, the file name of a tile image ends in ".png". -/
theorem imageAssetName_suffix (env : Env) (m : TileMap) (tile : TileRef) :
    ∃ front : List Char, (imageAssetName env m tile).data = front ++ ['.', 'p', 'n', 'g'] := by
  unfold imageAssetName
  rw [argStr_pngTemplate]
  generalize env.toLower (m.tilesetAt tile.tileset).name = lowered
  have hscan : scanFrom ScanMode.plain ['%', '2', '.', 'p', 'n', 'g']
      = [ArgPiece.marker 2 false ['%', '2'], ArgPiece.text '.', ArgPiece.text 'p',
         ArgPiece.text 'n', ArgPiece.text 'g'] := by decide
  obtain ⟨ps, hps⟩ := scanFrom_append_underscore ['%', '2', '.', 'p', 'n', 'g'] lowered.data
    ScanMode.plain
  rw [hscan] at hps
  have hdata : (lowered ++ "_%2.png").data = lowered.data ++ '_' :: ['%', '2', '.', 'p', 'n', 'g'] :=
    rfl
  obtain ⟨k, hk⟩ := minMarker_append_marker 2 false ['%', '2']
    [ArgPiece.text '.', ArgPiece.text 'p', ArgPiece.text 'n', ArgPiece.text 'g']
    (ps ++ [ArgPiece.text '_'])
  have hk2 : minMarker (scanArg (lowered ++ "_%2.png").data) = some k := by
    rw [scanArg, hdata, hps, ← hk]
    simp
  refine ⟨((ps.map (fillPiece k (decInt tile.id).data (env.localeInt tile.id).data)).flatten
      ++ '_' :: fillPiece k (decInt tile.id).data (env.localeInt tile.id).data
          (ArgPiece.marker 2 false ['%', '2'])).map (fun c => if c = ' ' then '_' else c), ?_⟩
  simp only [replaceSpaces, argInt, argFill, hk2]
  rw [scanArg, hdata, hps]
  simp [fillPiece]

/-! ## Decimal text and file names of plain tileset names -/

theorem digitChar_isDigit : ∀ d : Nat, d < 10 → (Nat.digitChar d).isDigit = true := by
  decide

theorem toDigitsCore_isDigit :
    ∀ (fuel n : Nat) (ds : List Char), (∀ c ∈ ds, c.isDigit = true) →
      ∀ c ∈ Nat.toDigitsCore 10 fuel n ds, c.isDigit = true
  | 0, _, ds, h => by simpa [Nat.toDigitsCore] using h
  | fuel + 1, n, ds, h => by
    have hd : (Nat.digitChar (n % 10)).isDigit = true :=
      digitChar_isDigit _ (Nat.mod_lt _ (by decide))
    have hcons : ∀ c ∈ Nat.digitChar (n % 10) :: ds, c.isDigit = true := by
      intro c hc
      rcases List.mem_cons.1 hc with rfl | hc
      · exact hd
      · exact h c hc
    simp only [Nat.toDigitsCore]
    split_ifs
    · exact hcons
    · exact toDigitsCore_isDigit fuel (n / 10) _ hcons

theorem decNat_isDigit (n : Nat) : ∀ c ∈ (decNat n).data, c.isDigit = true :=
  toDigitsCore_isDigit _ _ [] (fun _ h => by cases h)

theorem decInt_chars (n : Int) : ∀ c ∈ (decInt n).data, c = '-' ∨ c.isDigit = true := by
  cases n with
  | ofNat k => exact fun c hc => Or.inr (decNat_isDigit k c hc)
  | negSucc k =>
    intro c hc
    simp only [decInt, String.data_append, List.mem_append] at hc
    rcases hc with hc | hc
    · left
      simpa using hc
    · exact Or.inr (decNat_isDigit _ c hc)

theorem replaceSpaces_append (s t : String) :
    replaceSpaces (s ++ t) = replaceSpaces s ++ replaceSpaces t := by
  apply String.ext
  simp [replaceSpaces]

theorem replaceSpaces_of_no_space (s : String) (h : ' ' ∉ s.data) : replaceSpaces s = s := by
  apply String.ext
  simp only [replaceSpaces]
  conv_rhs => rw [← List.map_id s.data]
  apply List.map_congr_left
  intro c hc
  have : c ≠ ' ' := fun e => h (e ▸ hc)
  simp [this]

theorem replaceSpaces_decInt (n : Int) : replaceSpaces (decInt n) = decInt n := by
  apply replaceSpaces_of_no_space
  intro h
  rcases decInt_chars n _ h with h1 | h1
  · exact absurd h1 (by decide)
  · exact absurd h1 (by decide)

theorem argFill_plain_png (lowered a la : String) (h : '%' ∉ lowered.data) :
    argFill (lowered ++ "_%2.png") a la = lowered ++ "_" ++ a ++ ".png" := by
  have hscan : scanFrom ScanMode.plain "_%2.png".data
      = [ArgPiece.text '_', ArgPiece.marker 2 false ['%', '2'], ArgPiece.text '.',
         ArgPiece.text 'p', ArgPiece.text 'n', ArgPiece.text 'g'] := by decide
  have hs : scanArg (lowered ++ "_%2.png").data
      = lowered.data.map ArgPiece.text
        ++ [ArgPiece.text '_', ArgPiece.marker 2 false ['%', '2'], ArgPiece.text '.',
            ArgPiece.text 'p', ArgPiece.text 'n', ArgPiece.text 'g'] := by
    rw [scanArg, String.data_append, scanFrom_plain_append _ _ h, hscan]
  unfold argFill
  rw [hs, minMarker_map_text]
  apply String.ext
  simp only [minMarker, List.map_append, List.flatten_append, flatten_fill_text]
  simp [fillPiece]

theorem argFill_plain_id (lowered a la : String) (h : '%' ∉ lowered.data) :
    argFill (lowered ++ "_%2") a la = lowered ++ "_" ++ a := by
  have hscan : scanFrom ScanMode.plain "_%2".data
      = [ArgPiece.text '_', ArgPiece.marker 2 false ['%', '2']] := by decide
  have hs : scanArg (lowered ++ "_%2").data
      = lowered.data.map ArgPiece.text
        ++ [ArgPiece.text '_', ArgPiece.marker 2 false ['%', '2']] := by
    rw [scanArg, String.data_append, scanFrom_plain_append _ _ h, hscan]
  unfold argFill
  rw [hs, minMarker_map_text]
  apply String.ext
  simp only [minMarker, List.map_append, List.flatten_append, flatten_fill_text]
  simp [fillPiece]

theorem imageAssetName_plain (env : Env) (m : TileMap) (tile : TileRef)
    (h : '%' ∉ (env.toLower (m.tilesetAt tile.tileset).name).data) :
    imageAssetName env m tile
      = baseId env (m.tilesetAt tile.tileset).name ++ "_" ++ decInt tile.id ++ ".png" := by
  unfold imageAssetName baseId
  rw [argStr_pngTemplate, argInt, argFill_plain_png _ _ _ h, replaceSpaces_append,
    replaceSpaces_append, replaceSpaces_append, replaceSpaces_decInt]
  rfl

theorem staticId_plain (env : Env) (name : String) (id : Int)
    (h : '%' ∉ (env.toLower name).data) :
    staticId env name id = baseId env name ++ "_" ++ decInt id := by
  unfold staticId baseId
  rw [argStr_idTemplate, argInt, argFill_plain_id _ _ _ h, replaceSpaces_append,
    replaceSpaces_append, replaceSpaces_decInt]
  rfl

theorem tileAt_id (ts : Tileset) (id : Int) (tile : Tile) (h : ts.tileAt id = some tile) :
    tile.id = id := by
  have := List.find?_some h
  simpa using this

theorem digitChar_toNat : ∀ d : Nat, d < 10 → (Nat.digitChar d).toNat - 48 = d := by
  decide

theorem toDigitsCore_value :
    ∀ (fuel n : Nat) (ds : List Char), n < fuel →
      ∃ front, Nat.toDigitsCore 10 fuel n ds = front ++ ds ∧ front ≠ []
        ∧ digitsValue 0 front = n
  | 0, _, _, h => by omega
  | fuel + 1, n, ds, h => by
    have hd : (Nat.digitChar (n % 10)).toNat - 48 = n % 10 :=
      digitChar_toNat _ (Nat.mod_lt _ (by decide))
    simp only [Nat.toDigitsCore]
    split_ifs with h0
    · refine ⟨[Nat.digitChar (n % 10)], rfl, by simp, ?_⟩
      simp only [digitsValue, List.foldl_cons, List.foldl_nil, hd]
      omega
    · have hlt : n / 10 < fuel := by omega
      obtain ⟨front, h1, _, h3⟩ :=
        toDigitsCore_value fuel (n / 10) (Nat.digitChar (n % 10) :: ds) hlt
      refine ⟨front ++ [Nat.digitChar (n % 10)], by rw [h1]; simp, by simp, ?_⟩
      unfold digitsValue at h3 ⊢
      rw [List.foldl_append, h3]
      simp only [List.foldl_cons, List.foldl_nil, hd]
      omega

theorem decNat_value (n : Nat) : (decNat n).data ≠ [] ∧ digitsValue 0 (decNat n).data = n := by
  obtain ⟨front, h1, h2, h3⟩ := toDigitsCore_value (n + 1) n [] (Nat.lt_succ_self n)
  have : (decNat n).data = front := by
    rw [List.append_nil] at h1
    exact h1
  rw [this]
  exact ⟨h2, h3⟩

theorem decNat_injective (a b : Nat) (h : decNat a = decNat b) : a = b := by
  rw [← (decNat_value a).2, ← (decNat_value b).2, h]

theorem decNat_ne_minus (a b : Nat) : decNat a ≠ "-" ++ decNat b := by
  intro h
  have hd := decNat_isDigit a
  have hne := (decNat_value a).1
  rw [h] at hd
  have := hd '-' (by simp)
  exact absurd this (by decide)

theorem decInt_injective (a b : Int) (h : decInt a = decInt b) : a = b := by
  cases a with
  | ofNat x =>
    cases b with
    | ofNat y => rw [decNat_injective x y h]
    | negSucc y => exact absurd h (decNat_ne_minus _ _)
  | negSucc x =>
    cases b with
    | ofNat y => exact absurd h.symm (decNat_ne_minus _ _)
    | negSucc y =>
      simp only [decInt] at h
      have h1 : (decNat (x + 1)).data = (decNat (y + 1)).data := by
        have := congrArg String.data h
        simpa using this
      have := decNat_injective _ _ (String.ext h1)
      have hxy : x = y := by omega
      rw [hxy]

/-- Two texts that each hold a separator followed by a part free of it agree
only if the parts before and after the separator agree. -/
theorem split_at_last {α : Type} (c : α) :
    ∀ (x x1 y y1 : List α), c ∉ y → c ∉ y1 → x ++ c :: y = x1 ++ c :: y1 → x = x1 ∧ y = y1
  | [], [], y, y1, _, _, h => by
    simp only [List.nil_append, List.cons.injEq, true_and] at h
    exact ⟨rfl, h⟩
  | [], e :: x1, y, y1, hy, _, h => by
    simp only [List.nil_append, List.cons_append, List.cons.injEq] at h
    exact absurd (h.2 ▸ List.mem_append_right _ (List.mem_cons_self _ _)) hy
  | a :: x, [], y, y1, _, hy1, h => by
    simp only [List.nil_append, List.cons_append, List.cons.injEq] at h
    exact absurd (h.2 ▸ List.mem_append_right _ (List.mem_cons_self _ _)) hy1
  | a :: x, e :: x1, y, y1, hy, hy1, h => by
    simp only [List.cons_append, List.cons.injEq] at h
    obtain ⟨h1, h2⟩ := split_at_last c x x1 y y1 hy hy1 h.2
    exact ⟨by rw [h.1, h1], h2⟩

theorem decInt_no_underscore (n : Int) : '_' ∉ (decInt n).data := by
  intro h
  rcases decInt_chars n _ h with h1 | h1
  · exact absurd h1 (by decide)
  · exact absurd h1 (by decide)

/-- For plain tileset names the file name of a tile image determines the
identifier of the tileset and the id of the tile. -/
theorem imageAssetName_plain_inj (env : Env) (m : TileMap) (t1 t2 : TileRef)
    (h1 : '%' ∉ (env.toLower (m.tilesetAt t1.tileset).name).data)
    (h2 : '%' ∉ (env.toLower (m.tilesetAt t2.tileset).name).data)
    (h : imageAssetName env m t1 = imageAssetName env m t2) :
    baseId env (m.tilesetAt t1.tileset).name = baseId env (m.tilesetAt t2.tileset).name
      ∧ t1.id = t2.id := by
  rw [imageAssetName_plain env m t1 h1, imageAssetName_plain env m t2 h2] at h
  have hd := congrArg String.data h
  simp only [String.data_append] at hd
  have hd1 := List.append_cancel_right hd
  rw [List.append_assoc, List.append_assoc, List.singleton_append,
    List.singleton_append] at hd1
  obtain ⟨hb, hi⟩ := split_at_last '_' _ _ _ _ (decInt_no_underscore _)
    (decInt_no_underscore _) hd1
  exact ⟨String.ext hb, decInt_injective _ _ (String.ext hi)⟩

/-! ## The traversal, part by part -/

theorem frameLoop_snd (env : Env) (m : TileMap) (a : Nat) :
    ∀ (frames : List Frame) (u : List (Option TileRef)) (id : String),
      (frameLoop env m a frames (u, id)).2 = animationId env frames id
  | [], _, _ => rfl
  | frame :: rest, u, id => by
    simp only [frameLoop, animationId]
    exact frameLoop_snd env m a rest _ _

theorem frameLoop_fst (env : Env) (m : TileMap) (a : Nat) :
    ∀ (frames : List Frame) (u : List (Option TileRef)) (id : String),
      (frameLoop env m a frames (u, id)).1
        = insertAll (frames.map fun frame => tilePtr m a frame.tileId) u
  | [], _, _ => rfl
  | frame :: rest, u, id => by
    simp only [frameLoop, List.map_cons, insertAll, List.foldl_cons]
    exact frameLoop_fst env m a rest _ _

theorem cellStep_eq (env : Env) (m : TileMap) (layer : TileLayer) (y x : Nat)
    (st : ExportState) :
    cellStep env m layer y x st
      = { out := st.out ++ (cellLine env m layer y x).toList,
          uniqueTiles := insertAll (cellPtrs m layer y x) st.uniqueTiles,
          animationMap := recordAnim (cellAnim m layer y x) st.animationMap } := by
  unfold cellStep cellLine cellPtrs cellAnim
  cases h1 : (layer.cellAt x y).tileset with
  | none => simp [h1, insertAll, recordAnim]
  | some a =>
    cases h2 : (m.tilesetAt a).tileAt (layer.cellAt x y).tileId with
    | none => simp [h1, h2, insertAll, recordAnim]
    | some tile =>
      by_cases h3 : tile.isAnimated = true
      · simp [h1, h2, h3, frameLoop_snd, frameLoop_fst, recordAnim]
      · simp [h1, h2, h3, recordAnim, insertAll]

/-- A loop whose body appends lines and updates the two containers each on its
own does the same as a whole. -/
theorem foldl_parts {α : Type} (step : ExportState → α → ExportState)
    (f : α → List String) (g : α → List (Option TileRef) → List (Option TileRef))
    (h : α → AnimationMap → AnimationMap)
    (hstep : ∀ s v, step s v
      = { out := s.out ++ f v, uniqueTiles := g v s.uniqueTiles,
          animationMap := h v s.animationMap }) :
    ∀ (vs : List α) (s : ExportState),
      vs.foldl step s
        = { out := s.out ++ (vs.map f).flatten,
            uniqueTiles := vs.foldl (fun u v => g v u) s.uniqueTiles,
            animationMap := vs.foldl (fun a v => h v a) s.animationMap }
  | [], s => by simp
  | v :: vs, s => by
    rw [List.foldl_cons, foldl_parts step f g h hstep vs, hstep]
    simp [List.append_assoc]

theorem flatten_map_toList {α β : Type} (k : α → Option β) :
    ∀ vs : List α, (vs.map fun v => (k v).toList).flatten = vs.filterMap k
  | [] => rfl
  | v :: vs => by
    rw [List.map_cons, List.flatten_cons, flatten_map_toList k vs, List.filterMap_cons]
    cases k v <;> rfl

theorem foldl_insertAll {α : Type} (k : α → List (Option TileRef)) :
    ∀ (vs : List α) (u : List (Option TileRef)),
      vs.foldl (fun s v => insertAll (k v) s) u = insertAll (vs.flatMap k) u
  | [], _ => rfl
  | v :: vs, u => by
    rw [List.foldl_cons, foldl_insertAll k vs, List.flatMap_cons]
    simp [insertAll, List.foldl_append]

theorem foldl_recordAll {α : Type} (k : α → List (Option (Nat × Option (List Frame)))) :
    ∀ (vs : List α) (am : AnimationMap),
      vs.foldl (fun acc v => recordAll (k v) acc) am = recordAll (vs.flatMap k) am
  | [], _ => rfl
  | v :: vs, am => by
    rw [List.foldl_cons, foldl_recordAll k vs, List.flatMap_cons]
    simp [recordAll, List.foldl_append]

theorem rowLoop_eq (env : Env) (m : TileMap) (layer : TileLayer) (y : Nat) (st : ExportState) :
    rowLoop env m layer y st
      = { out := st.out ++ (List.range layer.width).filterMap (fun x => cellLine env m layer y x),
          uniqueTiles :=
            insertAll ((List.range layer.width).flatMap fun x => cellPtrs m layer y x)
              st.uniqueTiles,
          animationMap :=
            recordAll ((List.range layer.width).map fun x => cellAnim m layer y x)
              st.animationMap } := by
  unfold rowLoop
  rw [foldl_parts _ (fun x => (cellLine env m layer y x).toList)
    (fun x u => insertAll (cellPtrs m layer y x) u)
    (fun x am => recordAnim (cellAnim m layer y x) am)
    (fun s v => cellStep_eq env m layer y v s)]
  rw [flatten_map_toList, foldl_insertAll, recordAll, List.foldl_map]

theorem cellLoop_eq (env : Env) (m : TileMap) (layer : TileLayer) (st : ExportState) :
    cellLoop env m layer st
      = { out := st.out ++ (cellsOf layer).filterMap (fun c => cellLine env m layer c.1 c.2),
          uniqueTiles := insertAll (layerPtrs m layer) st.uniqueTiles,
          animationMap := recordAll (layerAnims m layer) st.animationMap } := by
  unfold cellLoop
  rw [foldl_parts _
    (fun y => (List.range layer.width).filterMap (fun x => cellLine env m layer y x))
    (fun y u => insertAll ((List.range layer.width).flatMap fun x => cellPtrs m layer y x) u)
    (fun y am => recordAll ((List.range layer.width).map fun x => cellAnim m layer y x) am)
    (fun s v => rowLoop_eq env m layer v s)]
  rw [foldl_insertAll, foldl_recordAll]
  simp only [cellsOf, layerPtrs, layerAnims, List.flatMap_def, List.filterMap_flatten,
    List.map_flatten, List.map_map, List.filterMap_map, Function.comp_def, List.flatten_flatten]

theorem layerStep_eq (env : Env) (m : TileMap) (st : ExportState) (layer : TileLayer) :
    layerStep env m st layer
      = { out := st.out ++ layerBlock env m layer,
          uniqueTiles := insertAll (layerPtrs m layer) st.uniqueTiles,
          animationMap := recordAll (layerAnims m layer) st.animationMap } := by
  simp [layerStep, cellLoop_eq, layerBlock, List.append_assoc]

/-- The state after the traversal, part by part: the lines are the opening and
the layer blocks, `uniqueTiles` is filled from the pointers of all cells in
traversal order, and `animationMap` from their frame sequences. -/
theorem traverse_eq (env : Env) (m : TileMap) :
    traverse env m
      = { out := sceneOpening env m ++ (m.tileLayers.map (layerBlock env m)).flatten,
          uniqueTiles := insertAll (m.tileLayers.flatMap (layerPtrs m)) [],
          animationMap := recordAll (m.tileLayers.flatMap (layerAnims m)) [] } := by
  unfold traverse
  rw [foldl_parts _ (layerBlock env m) (fun l u => insertAll (layerPtrs m l) u)
    (fun l am => recordAll (layerAnims m l) am) (fun s v => layerStep_eq env m s v)]
  rw [foldl_insertAll, foldl_recordAll]

/-! ## The containers -/

theorem mem_qsetInsert (p q : Option TileRef) (u : List (Option TileRef)) :
    q ∈ qsetInsert p u ↔ q ∈ u ∨ q = p := by
  unfold qsetInsert
  split_ifs with h
  · constructor
    · exact Or.inl
    · rintro (h1 | rfl)
      · exact h1
      · exact h
  · simp

theorem nodup_qsetInsert (p : Option TileRef) (u : List (Option TileRef)) (h : u.Nodup) :
    (qsetInsert p u).Nodup := by
  unfold qsetInsert
  split_ifs with hp
  · exact h
  · rw [List.nodup_append]
    refine ⟨h, List.nodup_singleton p, ?_⟩
    intro q hq hq1
    rw [List.mem_singleton] at hq1
    exact hp (hq1 ▸ hq)

theorem mem_insertAll (q : Option TileRef) :
    ∀ (ps u : List (Option TileRef)), q ∈ insertAll ps u ↔ q ∈ u ∨ q ∈ ps
  | [], u => by simp [insertAll]
  | p :: ps, u => by
    have ih := mem_insertAll q ps (qsetInsert p u)
    simp only [insertAll, List.foldl_cons] at ih ⊢
    rw [ih, mem_qsetInsert, List.mem_cons]
    tauto

theorem nodup_insertAll :
    ∀ (ps u : List (Option TileRef)), u.Nodup → (insertAll ps u).Nodup
  | [], _, h => h
  | p :: ps, u, h => nodup_insertAll ps (qsetInsert p u) (nodup_qsetInsert p u h)

theorem newFrames_eq_true (frames : List Frame) :
    ∀ animations : List (List Frame), newFrames frames animations = true ↔ frames ∉ animations
  | [] => by simp [newFrames]
  | a :: rest => by
    unfold newFrames
    split_ifs with h
    · simp [h]
    · rw [newFrames_eq_true frames rest, List.mem_cons]
      tauto

theorem qmapValue_of_lt (k : Nat) :
    ∀ am : AnimationMap, (∀ e ∈ am, k < e.1) → qmapValue k am = []
  | [], _ => rfl
  | (k1, v) :: rest, h => by
    have h1 : k < k1 := h (k1, v) (List.mem_cons_self _ _)
    have h2 := qmapValue_of_lt k rest fun e he => h e (List.mem_cons_of_mem _ he)
    simp only [qmapValue]
    rw [if_neg (by omega), h2]

theorem qmapValue_modify_same (k : Nat) (f : List (List Frame) → List (List Frame)) :
    ∀ am : AnimationMap, keysSorted am → qmapValue k (qmapModify k f am) = f (qmapValue k am)
  | [], _ => by simp [qmapModify, qmapValue]
  | (k1, v) :: rest, h => by
    have hlt : ∀ e ∈ rest, k1 < e.1 := fun e he => List.rel_of_pairwise_cons h he
    have hrest : keysSorted rest := List.Pairwise.of_cons h
    unfold qmapModify
    split_ifs with h1 h2
    · have : qmapValue k ((k1, v) :: rest) = [] :=
        qmapValue_of_lt k _ fun e he => by
          rcases List.mem_cons.1 he with rfl | he
          · exact h1
          · exact lt_trans h1 (hlt e he)
      rw [this]
      simp [qmapValue]
    · simp [qmapValue, h2]
    · simp only [qmapValue, if_neg h2]
      exact qmapValue_modify_same k f rest hrest

theorem qmapValue_modify_other (j k : Nat) (f : List (List Frame) → List (List Frame))
    (hjk : j ≠ k) : ∀ am : AnimationMap, qmapValue j (qmapModify k f am) = qmapValue j am
  | [] => by simp [qmapModify, qmapValue, hjk]
  | (k1, v) :: rest => by
    unfold qmapModify
    split_ifs with h1 h2
    · simp [qmapValue, hjk]
    · subst h2
      simp [qmapValue, hjk]
    · simp only [qmapValue]
      rw [qmapValue_modify_other j k f hjk rest]

theorem keys_qmapModify (k : Nat) (f : List (List Frame) → List (List Frame)) :
    ∀ (am : AnimationMap) (e : Nat × List (List Frame)),
      e ∈ qmapModify k f am → e.1 = k ∨ ∃ e1 ∈ am, e1.1 = e.1
  | [], e, he => by
    simp only [qmapModify, List.mem_singleton] at he
    exact Or.inl (by rw [he])
  | (k1, v) :: rest, e, he => by
    unfold qmapModify at he
    split_ifs at he with h1 h2
    · rcases List.mem_cons.1 he with rfl | he
      · exact Or.inl rfl
      · exact Or.inr ⟨e, he, rfl⟩
    · rcases List.mem_cons.1 he with rfl | he
      · exact Or.inl h2.symm
      · exact Or.inr ⟨e, List.mem_cons_of_mem _ he, rfl⟩
    · rcases List.mem_cons.1 he with rfl | he
      · exact Or.inr ⟨(k1, v), List.mem_cons_self _ _, rfl⟩
      · rcases keys_qmapModify k f rest e he with h | ⟨e1, he1, h⟩
        · exact Or.inl h
        · exact Or.inr ⟨e1, List.mem_cons_of_mem _ he1, h⟩

theorem keysSorted_qmapModify (k : Nat) (f : List (List Frame) → List (List Frame)) :
    ∀ am : AnimationMap, keysSorted am → keysSorted (qmapModify k f am)
  | [], _ => by simp [qmapModify, keysSorted]
  | (k1, v) :: rest, h => by
    have hlt : ∀ e ∈ rest, k1 < e.1 := fun e he => List.rel_of_pairwise_cons h he
    have hrest : keysSorted rest := List.Pairwise.of_cons h
    unfold qmapModify
    split_ifs with h1 h2
    · refine List.Pairwise.cons ?_ h
      intro e he
      rcases List.mem_cons.1 he with rfl | he
      · exact h1
      · exact lt_trans h1 (hlt e he)
    · exact List.Pairwise.cons hlt hrest
    · refine List.Pairwise.cons ?_ (keysSorted_qmapModify k f rest hrest)
      intro e he
      rcases keys_qmapModify k f rest e he with h3 | ⟨e1, he1, h3⟩
      · rw [h3]
        omega
      · rw [← h3]
        exact hlt e1 he1

theorem keysSorted_recordAnim (r : Option (Nat × Option (List Frame))) (am : AnimationMap)
    (h : keysSorted am) : keysSorted (recordAnim r am) := by
  rcases r with _ | ⟨a, _ | frames⟩
  · exact h
  · exact keysSorted_qmapModify a _ am h
  · simp only [recordAnim]
    split_ifs
    · exact keysSorted_qmapModify a _ _ (keysSorted_qmapModify a _ am h)
    · exact keysSorted_qmapModify a _ am h

theorem keysSorted_recordAll :
    ∀ (rs : List (Option (Nat × Option (List Frame)))) (am : AnimationMap),
      keysSorted am → keysSorted (recordAll rs am)
  | [], _, h => h
  | r :: rs, am, h => keysSorted_recordAll rs (recordAnim r am) (keysSorted_recordAnim r am h)

theorem qmapValue_recordAnim (a : Nat) (r : Option (Nat × Option (List Frame)))
    (am : AnimationMap) (h : keysSorted am) :
    qmapValue a (recordAnim r am) = (seqsOf a [r]).foldl record (qmapValue a am) := by
  rcases r with _ | ⟨b, _ | frames⟩
  · simp [recordAnim, seqsOf]
  · by_cases hab : a = b
    · subst hab
      simp [recordAnim, seqsOf, qmapValue_modify_same a _ am h]
    · simp [recordAnim, seqsOf, qmapValue_modify_other a b _ hab]
  · by_cases hab : a = b
    · subst hab
      have h1 := keysSorted_qmapModify a (fun animations => animations) am h
      simp only [recordAnim, seqsOf, List.filterMap_cons, if_true, List.filterMap_nil,
        List.foldl_cons, List.foldl_nil, record]
      rw [qmapValue_modify_same a _ am h]
      split_ifs with h2
      · rw [qmapValue_modify_same a _ _ h1, qmapValue_modify_same a _ am h]
      · rw [qmapValue_modify_same a _ am h]
    · have hba : ¬ b = a := fun e => hab e.symm
      simp only [recordAnim, seqsOf, List.filterMap_cons, if_neg hba, List.filterMap_nil,
        List.foldl_nil]
      split_ifs
      · rw [qmapValue_modify_other a b _ hab, qmapValue_modify_other a b _ hab]
      · rw [qmapValue_modify_other a b _ hab]

theorem seqsOf_cons (a : Nat) (r : Option (Nat × Option (List Frame)))
    (rs : List (Option (Nat × Option (List Frame)))) :
    seqsOf a (r :: rs) = seqsOf a [r] ++ seqsOf a rs := by
  unfold seqsOf
  rw [← List.filterMap_append]
  rfl

theorem qmapValue_recordAll (a : Nat) :
    ∀ (rs : List (Option (Nat × Option (List Frame)))) (am : AnimationMap),
      keysSorted am →
        qmapValue a (recordAll rs am) = (seqsOf a rs).foldl record (qmapValue a am)
  | [], _, _ => rfl
  | r :: rs, am, h => by
    rw [seqsOf_cons, List.foldl_append, ← qmapValue_recordAnim a r am h]
    exact qmapValue_recordAll a rs (recordAnim r am) (keysSorted_recordAnim r am h)

theorem keysSorted_traverse (env : Env) (m : TileMap) :
    keysSorted (traverse env m).animationMap := by
  rw [traverse_eq]
  exact keysSorted_recordAll _ [] List.Pairwise.nil

/-- The sequences recorded for a tileset are those of its animated cells,
offered one after the other in traversal order. -/
theorem qmapValue_traverse (env : Env) (m : TileMap) (a : Nat) :
    qmapValue a (traverse env m).animationMap = (animatedSeqs m a).foldl record [] := by
  rw [traverse_eq]
  exact qmapValue_recordAll a _ [] List.Pairwise.nil

theorem qmapValue_of_mem :
    ∀ (am : AnimationMap), keysSorted am →
      ∀ e ∈ am, qmapValue e.1 am = e.2
  | [], _, e, he => by cases he
  | (k1, v) :: rest, h, e, he => by
    have hlt : ∀ e ∈ rest, k1 < e.1 := fun e he => List.rel_of_pairwise_cons h he
    rcases List.mem_cons.1 he with rfl | he
    · simp [qmapValue]
    · have := hlt e he
      simp only [qmapValue]
      rw [if_neg (by omega)]
      exact qmapValue_of_mem rest (List.Pairwise.of_cons h) e he

theorem mem_qmapValue (a : Nat) (s : List Frame) :
    ∀ am : AnimationMap, s ∈ qmapValue a am → ∃ e ∈ am, e.1 = a ∧ s ∈ e.2
  | [], h => by cases h
  | (k1, v) :: rest, h => by
    simp only [qmapValue] at h
    split_ifs at h with h1
    · exact ⟨(k1, v), List.mem_cons_self _ _, h1.symm, h⟩
    · obtain ⟨e, he, h2, h3⟩ := mem_qmapValue a s rest h
      exact ⟨e, List.mem_cons_of_mem _ he, h2, h3⟩

theorem mem_foldl_record (s : List Frame) :
    ∀ (l acc : List (List Frame)), s ∈ l.foldl record acc ↔ s ∈ acc ∨ s ∈ l
  | [], acc => by simp
  | x :: l, acc => by
    rw [List.foldl_cons, mem_foldl_record s l, List.mem_cons]
    unfold record
    split_ifs with h
    · rw [List.mem_append, List.mem_singleton]
      tauto
    · have hx : x ∈ acc := by
        by_contra hx
        exact h ((newFrames_eq_true x acc).2 hx)
      constructor
      · rintro (h1 | h1)
        · exact Or.inl h1
        · exact Or.inr (Or.inr h1)
      · rintro (h1 | rfl | h1)
        · exact Or.inl h1
        · exact Or.inl hx
        · exact Or.inr h1

/-! ## Emission order -/

theorem mem_cellsOf (layer : TileLayer) (c : Nat × Nat) :
    c ∈ cellsOf layer ↔ c.1 < layer.height ∧ c.2 < layer.width := by
  obtain ⟨y, x⟩ := c
  simp only [cellsOf, List.mem_flatMap, List.mem_map, List.mem_range, Prod.mk.injEq]
  constructor
  · rintro ⟨y1, hy, x1, hx, rfl, rfl⟩
    exact ⟨hy, hx⟩
  · rintro ⟨hy, hx⟩
    exact ⟨y, hy, x, hx, rfl, rfl⟩

theorem cellsOf_pairwise (layer : TileLayer) : (cellsOf layer).Pairwise rowMajorLt := by
  unfold cellsOf
  rw [List.pairwise_flatMap]
  constructor
  · intro y _
    rw [List.pairwise_map]
    exact (List.pairwise_lt_range layer.width).imp fun h => Or.inr ⟨rfl, h⟩
  · refine (List.pairwise_lt_range layer.height).imp ?_
    intro y1 y2 h c hc d hd
    simp only [List.mem_map] at hc hd
    obtain ⟨_, _, rfl⟩ := hc
    obtain ⟨_, _, rfl⟩ := hd
    exact Or.inl h

theorem placedCells_pairwise (env : Env) (m : TileMap) (layer : TileLayer) :
    (placedCells env m layer).Pairwise rowMajorLt :=
  (cellsOf_pairwise layer).sublist (List.filter_sublist _)

theorem filterMap_placedCells (env : Env) (m : TileMap) (layer : TileLayer) :
    (placedCells env m layer).filterMap (fun c => cellLine env m layer c.1 c.2)
      = (cellsOf layer).filterMap (fun c => cellLine env m layer c.1 c.2) := by
  unfold placedCells
  induction cellsOf layer with
  | nil => rfl
  | cons c cs ih =>
    cases h : cellLine env m layer c.1 c.2 with
    | none => simp [List.filter_cons, List.filterMap_cons, h, ih]
    | some line => simp [List.filter_cons, List.filterMap_cons, h, ih]

theorem rowMajorLt_asymm (c d : Nat × Nat) (h : rowMajorLt c d) : ¬ rowMajorLt d c := by
  unfold rowMajorLt at *
  omega

theorem wrapInt_of_fits (i : Int) (h : fitsInt i) : wrapInt i = i := by
  unfold wrapInt
  unfold fitsInt at h
  omega

theorem cellLine_coordinates (env : Env) (m : TileMap) (layer : TileLayer) (y x : Nat)
    (line : String) (h : cellLine env m layer y x = some line) :
    ∃ src, line = "\t\tImage\x7bx:" ++ decInt (intMul x m.tileWidth) ++ ";y:"
      ++ decInt (intMul y m.tileHeight) ++ ";source:" ++ src ++ "\x7d" := by
  unfold cellLine at h
  split at h
  · cases h
  · split at h
    · cases h
    · rename_i a _ _ tile _
      split_ifs at h
      · exact ⟨_, (Option.some.inj h).symm⟩
      · refine ⟨"\"" ++ staticId env (m.tilesetAt a).name tile.id ++ ".png\"", ?_⟩
        have e1 : ";source:\"" = ";source:" ++ "\"" := by decide
        have e2 : ".png\"\x7d" = ".png\"" ++ "\x7d" := by decide
        rw [← Option.some.inj h, staticLine, e1, e2]
        simp only [String.append_assoc]

/-- Claim C10, as stated, fails in its last part: in `wideMap` the cell at column
4096 of row 0 lies in the layer and gets a placement line, the product
4096 * tileWidth is 4294967296, which no `int` holds, and the line carries the
coordinate 0 instead. -/
theorem coordinate_overflows_int :
    4096 < wideLayer.width ∧ 0 < wideLayer.height
      ∧ ¬ fitsInt ((4096 : Nat) * wideMap.tileWidth)
      ∧ decInt ((4096 : Nat) * wideMap.tileWidth) = "4294967296"
      ∧ cellLine stdEnv wideMap wideLayer 0 4096
        = some "\t\tImage\x7bx:0;y:0;source:\"base_3.png\"\x7d" := by
  refine ⟨by decide, by decide, by decide, by decide, by decide⟩

/-- Claim C10, amended: the scene document is the opening lines, one block per
layer in the order of the map's tile-layer list, then the trailer; a layer
block holds, between its opening lines and its closing brace, one placement
line per cell that resolves, in the order of those cells; a cell is among them
exactly when it lies in the layer and resolves; the cell at position i of that
order precedes the cell at position j exactly when its row is lower, or the
rows are equal and its column is lower; and the placement line of the cell at
column x, row y carries the coordinates x*tileWidth and y*tileHeight whenever
these two products are values of an `int`. -/
theorem row_major_emission (env : Env) (mapPrefix : String) (m : TileMap) :
    (exportMap env mapPrefix m).scene
        = sceneOpening env m
          ++ (m.tileLayers.map fun layer =>
                layerOpening env layer
                  ++ (placedCells env m layer).filterMap (fun c => cellLine env m layer c.1 c.2)
                  ++ ["\t\x7d"]).flatten
          ++ trailer env m (traverse env m).animationMap ++ ["\x7d"]
      ∧ (∀ (layer : TileLayer) (y x : Nat),
          (y, x) ∈ placedCells env m layer
            ↔ y < layer.height ∧ x < layer.width ∧ (cellLine env m layer y x).isSome = true)
      ∧ (∀ (layer : TileLayer) (i j : Fin (placedCells env m layer).length),
          i < j ↔
            ((placedCells env m layer).get i).1 < ((placedCells env m layer).get j).1
              ∨ (((placedCells env m layer).get i).1 = ((placedCells env m layer).get j).1
                ∧ ((placedCells env m layer).get i).2 < ((placedCells env m layer).get j).2))
      ∧ (∀ (layer : TileLayer) (y x : Nat) (line : String),
          cellLine env m layer y x = some line →
          fitsInt (x * m.tileWidth) → fitsInt (y * m.tileHeight) →
            ∃ src, line = "\t\tImage\x7bx:" ++ decInt (x * m.tileWidth) ++ ";y:"
              ++ decInt (y * m.tileHeight) ++ ";source:" ++ src ++ "\x7d") := by
  refine ⟨?_, ?_, ?_, ?_⟩
  · simp only [exportMap, sceneLines, filterMap_placedCells]
    rw [traverse_eq]
    rfl
  · intro layer y x
    simp [placedCells, List.mem_filter, mem_cellsOf, and_assoc]
  · intro layer i j
    have hp := placedCells_pairwise env m layer
    have hlt : ∀ a b : Fin (placedCells env m layer).length, a < b →
        rowMajorLt ((placedCells env m layer).get a) ((placedCells env m layer).get b) :=
      fun a b hab => List.pairwise_iff_get.1 hp a b hab
    constructor
    · exact fun h => hlt i j h
    · intro h
      rcases lt_trichotomy i j with hij | hij | hij
      · exact hij
      · subst hij
        exact absurd h (by omega)
      · exact absurd (hlt j i hij) (rowMajorLt_asymm _ _ h)
  · intro layer y x line h hx hy
    have := cellLine_coordinates env m layer y x line h
    rwa [intMul, intMul, wrapInt_of_fits _ hx, wrapInt_of_fits _ hy] at this

theorem row_major_emission_witness :
    cellLine stdEnv exampleMap groundLayer 0 1
        = some "\t\tImage\x7bx:16;y:0;source:base_5_6\x7d"
      ∧ fitsInt ((1 : Nat) * exampleMap.tileWidth)
      ∧ fitsInt ((0 : Nat) * exampleMap.tileHeight)
      ∧ ∃ src, "\t\tImage\x7bx:16;y:0;source:base_5_6\x7d"
          = "\t\tImage\x7bx:" ++ decInt ((1 : Nat) * exampleMap.tileWidth) ++ ";y:"
            ++ decInt ((0 : Nat) * exampleMap.tileHeight) ++ ";source:" ++ src ++ "\x7d" :=
  ⟨by decide, by decide, by decide,
    (row_major_emission stdEnv "Ground" exampleMap).2.2.2 groundLayer 0 1 _ (by decide)
      (by decide) (by decide)⟩

/-! ## The asset set and the recorded animations -/

theorem mem_seqsOf (a : Nat) (s : List Frame) (rs : List (Option (Nat × Option (List Frame)))) :
    s ∈ seqsOf a rs ↔ some (a, some s) ∈ rs := by
  unfold seqsOf
  rw [List.mem_filterMap]
  constructor
  · rintro ⟨r, hr, h⟩
    rcases r with _ | ⟨b, _ | frames⟩
    · cases h
    · cases h
    · simp only at h
      split_ifs at h with hb
      cases h
      subst hb
      exact hr
  · intro h
    exact ⟨_, h, by simp⟩

theorem mem_allAnims (m : TileMap) (r : Option (Nat × Option (List Frame))) :
    r ∈ m.tileLayers.flatMap (layerAnims m)
      ↔ ∃ layer ∈ m.tileLayers, ∃ y x, y < layer.height ∧ x < layer.width
          ∧ cellAnim m layer y x = r := by
  simp only [List.mem_flatMap, layerAnims, List.mem_map, Prod.exists, mem_cellsOf]
  constructor
  · rintro ⟨layer, hl, y, x, ⟨hy, hx⟩, h⟩
    exact ⟨layer, hl, y, x, hy, hx, h⟩
  · rintro ⟨layer, hl, y, x, hy, hx, h⟩
    exact ⟨layer, hl, y, x, ⟨hy, hx⟩, h⟩

theorem mem_allPtrs (m : TileMap) (p : Option TileRef) :
    p ∈ m.tileLayers.flatMap (layerPtrs m)
      ↔ ∃ layer ∈ m.tileLayers, ∃ y x, y < layer.height ∧ x < layer.width
          ∧ p ∈ cellPtrs m layer y x := by
  simp only [List.mem_flatMap, layerPtrs, Prod.exists, mem_cellsOf]
  constructor
  · rintro ⟨layer, hl, y, x, ⟨hy, hx⟩, h⟩
    exact ⟨layer, hl, y, x, hy, hx, h⟩
  · rintro ⟨layer, hl, y, x, hy, hx, h⟩
    exact ⟨layer, hl, y, x, ⟨hy, hx⟩, h⟩

/-- A frame sequence is recorded under a tileset exactly when a cell of the
map shows an animated tile of that tileset with that sequence. -/
theorem recorded_iff (env : Env) (m : TileMap) (a : Nat) (s : List Frame) :
    (∃ e ∈ (traverse env m).animationMap, e.1 = a ∧ s ∈ e.2)
      ↔ ∃ layer ∈ m.tileLayers, ∃ y x, y < layer.height ∧ x < layer.width
          ∧ cellAnim m layer y x = some (a, some s) := by
  have hval : s ∈ qmapValue a (traverse env m).animationMap
      ↔ ∃ layer ∈ m.tileLayers, ∃ y x, y < layer.height ∧ x < layer.width
          ∧ cellAnim m layer y x = some (a, some s) := by
    rw [qmapValue_traverse, mem_foldl_record, animatedSeqs, mem_seqsOf, mem_allAnims]
    simp
  rw [← hval]
  constructor
  · rintro ⟨e, he, rfl, hs⟩
    rw [qmapValue_of_mem _ (keysSorted_traverse env m) e he]
    exact hs
  · exact mem_qmapValue a s _

/-- The four kinds of cell: no tileset, unresolved tile id, animated tile,
static tile, each with what it hands to the two containers. -/
theorem cell_cases (m : TileMap) (layer : TileLayer) (y x : Nat) :
    ((layer.cellAt x y).tileset = none
        ∧ cellPtrs m layer y x = [] ∧ cellAnim m layer y x = none)
      ∨ (∃ a, (layer.cellAt x y).tileset = some a
          ∧ (m.tilesetAt a).tileAt (layer.cellAt x y).tileId = none
          ∧ cellPtrs m layer y x = [] ∧ cellAnim m layer y x = some (a, none))
      ∨ (∃ a tile, (layer.cellAt x y).tileset = some a
          ∧ (m.tilesetAt a).tileAt (layer.cellAt x y).tileId = some tile
          ∧ tile.isAnimated = true
          ∧ cellPtrs m layer y x = tile.frames.map (fun frame => tilePtr m a frame.tileId)
          ∧ cellAnim m layer y x = some (a, some tile.frames))
      ∨ (∃ a tile, (layer.cellAt x y).tileset = some a
          ∧ (m.tilesetAt a).tileAt (layer.cellAt x y).tileId = some tile
          ∧ tile.isAnimated = false
          ∧ cellPtrs m layer y x = [some (TileRef.mk a tile.id)]
          ∧ cellAnim m layer y x = some (a, none)) := by
  unfold cellPtrs cellAnim
  cases h1 : (layer.cellAt x y).tileset with
  | none => exact Or.inl ⟨rfl, by simp [h1], by simp [h1]⟩
  | some a =>
    cases h2 : (m.tilesetAt a).tileAt (layer.cellAt x y).tileId with
    | none => exact Or.inr (Or.inl ⟨a, rfl, h2, by simp [h1, h2], by simp [h1, h2]⟩)
    | some tile =>
      by_cases h3 : tile.isAnimated = true
      · exact Or.inr (Or.inr (Or.inl
          ⟨a, tile, rfl, h2, h3, by simp [h1, h2, h3], by simp [h1, h2, h3]⟩))
      · have h3f : tile.isAnimated = false := by simpa using h3
        exact Or.inr (Or.inr (Or.inr
          ⟨a, tile, rfl, h2, h3f, by simp [h1, h2, h3f], by simp [h1, h2, h3f]⟩))

theorem mem_cellPtrs (m : TileMap) (layer : TileLayer) (y x : Nat) (p : Option TileRef) :
    p ∈ cellPtrs m layer y x
      ↔ (∃ a tile, (layer.cellAt x y).tileset = some a
            ∧ (m.tilesetAt a).tileAt (layer.cellAt x y).tileId = some tile
            ∧ tile.isAnimated = false ∧ p = some (TileRef.mk a tile.id))
        ∨ (∃ a s, cellAnim m layer y x = some (a, some s)
            ∧ ∃ frame ∈ s, p = tilePtr m a frame.tileId) := by
  rcases cell_cases m layer y x with ⟨h1, hp, ha⟩ | ⟨a, h1, h2, hp, ha⟩ |
    ⟨a, tile, h1, h2, h3, hp, ha⟩ | ⟨a, tile, h1, h2, h3, hp, ha⟩
  · rw [hp, ha]
    constructor
    · intro h
      cases h
    · rintro (⟨a1, tile1, h4, _⟩ | ⟨a1, s, h4, _⟩)
      · rw [h1] at h4
        cases h4
      · cases h4
  · rw [hp, ha]
    constructor
    · intro h
      cases h
    · rintro (⟨a1, tile1, h4, h5, _⟩ | ⟨a1, s, h4, _⟩)
      · rw [h1] at h4
        cases h4
        rw [h2] at h5
        cases h5
      · cases h4
  · rw [hp, ha, List.mem_map]
    constructor
    · rintro ⟨frame, hf, rfl⟩
      exact Or.inr ⟨a, tile.frames, rfl, frame, hf, rfl⟩
    · rintro (⟨a1, tile1, h4, h5, h6, _⟩ | ⟨a1, s, h4, frame, hf, h7⟩)
      · rw [h1] at h4
        cases h4
        rw [h2] at h5
        cases h5
        rw [h3] at h6
        cases h6
      · cases h4
        exact ⟨frame, hf, h7.symm⟩
  · rw [hp, ha, List.mem_singleton]
    constructor
    · rintro rfl
      exact Or.inl ⟨a, tile, h1, h2, h3, rfl⟩
    · rintro (⟨a1, tile1, h4, h5, _, h7⟩ | ⟨a1, s, h4, _⟩)
      · rw [h1] at h4
        cases h4
        rw [h2] at h5
        cases h5
        exact h7
      · cases h4

theorem uniqueTiles_eq (env : Env) (m : TileMap) :
    (traverse env m).uniqueTiles = insertAll (m.tileLayers.flatMap (layerPtrs m)) [] := by
  rw [traverse_eq]

theorem nodup_uniqueTiles (env : Env) (m : TileMap) : (traverse env m).uniqueTiles.Nodup := by
  rw [uniqueTiles_eq]
  exact nodup_insertAll _ [] List.nodup_nil

theorem mem_uniqueTiles (env : Env) (m : TileMap) (p : Option TileRef) :
    p ∈ (traverse env m).uniqueTiles
      ↔ (∃ layer ∈ m.tileLayers, ∃ y x a tile, y < layer.height ∧ x < layer.width
            ∧ (layer.cellAt x y).tileset = some a
            ∧ (m.tilesetAt a).tileAt (layer.cellAt x y).tileId = some tile
            ∧ tile.isAnimated = false ∧ p = some (TileRef.mk a tile.id))
        ∨ (∃ entry ∈ (traverse env m).animationMap, ∃ animation ∈ entry.2,
            ∃ frame ∈ animation, p = tilePtr m entry.1 frame.tileId) := by
  rw [uniqueTiles_eq, mem_insertAll, mem_allPtrs]
  simp only [List.not_mem_nil, false_or]
  constructor
  · rintro ⟨layer, hl, y, x, hy, hx, hp⟩
    rcases (mem_cellPtrs m layer y x p).1 hp with
      ⟨a, tile, h1, h2, h3, h4⟩ | ⟨a, s, h1, frame, hf, h2⟩
    · exact Or.inl ⟨layer, hl, y, x, a, tile, hy, hx, h1, h2, h3, h4⟩
    · obtain ⟨e, he, rfl, hs⟩ :=
        (recorded_iff env m a s).2 ⟨layer, hl, y, x, hy, hx, h1⟩
      exact Or.inr ⟨e, he, s, hs, frame, hf, h2⟩
  · rintro (⟨layer, hl, y, x, a, tile, hy, hx, h1, h2, h3, h4⟩ |
      ⟨e, he, s, hs, frame, hf, h2⟩)
    · exact ⟨layer, hl, y, x, hy, hx,
        (mem_cellPtrs m layer y x p).2 (Or.inl ⟨a, tile, h1, h2, h3, h4⟩)⟩
    · obtain ⟨layer, hl, y, x, hy, hx, h1⟩ :=
        (recorded_iff env m e.1 s).1 ⟨e, he, rfl, hs⟩
      exact ⟨layer, hl, y, x, hy, hx,
        (mem_cellPtrs m layer y x p).2 (Or.inr ⟨e.1, s, h1, frame, hf, h2⟩)⟩

/-- Claim C2: a pointer is a member of `uniqueTiles` after the traversal exactly
when it is the tile of a resolved non-animated cell or the pointer
`tileset->tileAt(frame.tileId)` for a frame of a frame sequence recorded in
`animationMap`; the set holds no member twice; and in the example map the
animated tile 7, which is neither a frame nor shown statically, is not a
member. -/
theorem asset_set_exact (env : Env) (m : TileMap) (p : Option TileRef) :
    (p ∈ (traverse env m).uniqueTiles
        ↔ (∃ layer ∈ m.tileLayers, ∃ y x a tile, y < layer.height ∧ x < layer.width
              ∧ (layer.cellAt x y).tileset = some a
              ∧ (m.tilesetAt a).tileAt (layer.cellAt x y).tileId = some tile
              ∧ tile.isAnimated = false ∧ p = some (TileRef.mk a tile.id))
          ∨ (∃ entry ∈ (traverse env m).animationMap, ∃ animation ∈ entry.2,
              ∃ frame ∈ animation, p = tilePtr m entry.1 frame.tileId))
      ∧ (traverse env m).uniqueTiles.Nodup
      ∧ some (TileRef.mk 0 7) ∉ (traverse stdEnv exampleMap).uniqueTiles :=
  ⟨mem_uniqueTiles env m p, nodup_uniqueTiles env m, by decide⟩

/-! ## Keep-first deduplication -/

theorem mem_removeRepeats {α : Type} [DecidableEq α] (x : α) :
    ∀ l : List α, x ∈ removeRepeats l ↔ x ∈ l
  | [] => by simp [removeRepeats]
  | y :: l => by
    simp only [removeRepeats, List.mem_cons, List.mem_filter, mem_removeRepeats x l,
      decide_eq_true_eq]
    by_cases h : x = y
    · simp [h]
    · simp [h]

theorem nodup_removeRepeats {α : Type} [DecidableEq α] :
    ∀ l : List α, (removeRepeats l).Nodup
  | [] => List.nodup_nil
  | y :: l => by
    simp only [removeRepeats, List.nodup_cons, List.mem_filter, decide_eq_true_eq]
    exact ⟨fun h => h.2 rfl, (nodup_removeRepeats l).filter _⟩

theorem foldl_record :
    ∀ (l acc : List (List Frame)),
      l.foldl record acc = acc ++ (removeRepeats l).filter (fun s => decide (s ∉ acc))
  | [], acc => by simp [removeRepeats]
  | x :: xs, acc => by
    rw [List.foldl_cons, foldl_record xs]
    unfold record
    split_ifs with h
    · have hx : x ∉ acc := (newFrames_eq_true x acc).1 h
      simp only [removeRepeats, List.filter_cons, hx, not_false_eq_true, decide_True, if_true,
        List.append_assoc, List.singleton_append, List.filter_filter]
      congr 2
      apply List.filter_congr
      intro s _
      simp only [List.mem_append, List.mem_singleton, not_or, Bool.decide_and, ne_eq,
        Bool.and_comm]
    · have hx : x ∈ acc := by
        by_contra hx
        exact h ((newFrames_eq_true x acc).2 hx)
      simp only [removeRepeats, List.filter_cons, hx, not_true_eq_false, decide_False,
        Bool.false_eq_true, if_false, List.filter_filter]
      congr 1
      apply List.filter_congr
      intro s _
      by_cases hs : s ∈ acc
      · simp [hs]
      · have : s ≠ x := fun e => hs (e ▸ hx)
        simp [hs, this]

/-- Claim C4: for every tileset (by address), the frame sequences recorded for it
in `animationMap` after the traversal are the frame sequences of its animated
cells in traversal order with every sequence equal to an earlier one removed;
the recorded list has no two equal sequences; every entry of the map holds
that list for its key; and the trailer is one animation block per recorded
sequence, entry by entry. -/
theorem dedup_keep_first (env : Env) (m : TileMap) (a : Nat) :
    qmapValue a (traverse env m).animationMap = removeRepeats (animatedSeqs m a)
      ∧ (qmapValue a (traverse env m).animationMap).Nodup
      ∧ (∀ e ∈ (traverse env m).animationMap, e.2 = removeRepeats (animatedSeqs m e.1))
      ∧ trailer env m (traverse env m).animationMap
        = ((traverse env m).animationMap.map fun e =>
            ((removeRepeats (animatedSeqs m e.1)).map
              (animationBlock env (m.tilesetAt e.1).name)).flatten).flatten := by
  have hval : ∀ b, qmapValue b (traverse env m).animationMap
      = removeRepeats (animatedSeqs m b) := by
    intro b
    rw [qmapValue_traverse, foldl_record]
    simp
  have hent : ∀ e ∈ (traverse env m).animationMap, e.2 = removeRepeats (animatedSeqs m e.1) :=
    fun e he => by rw [← hval e.1, qmapValue_of_mem _ (keysSorted_traverse env m) e he]
  refine ⟨hval a, ?_, hent, ?_⟩
  · rw [hval a]
    exact nodup_removeRepeats _
  · unfold trailer
    congr 1
    apply List.map_congr_left
    intro e he
    rw [entryBlocks, hent e he]

/-! ## Order of the animation blocks -/

theorem trailer_eq_blocks (env : Env) (m : TileMap) (am : AnimationMap) :
    trailer env m am = ((trailerBlocks env m am).map Prod.snd).flatten := by
  unfold trailer trailerBlocks entryBlocks
  rw [List.flatMap_def, List.map_flatten, List.flatten_flatten, List.map_map, List.map_map]
  congr 1
  apply List.map_congr_left
  intro e _
  simp [Function.comp_def]

/-- Claim C9, as stated, fails: in `orderMap` the first animated cell, at (0,0),
belongs to tileset "Alpha" and the next one, at (1,0), to tileset "Beta", yet
the trailer holds the block of "Beta" before the block of "Alpha". -/
theorem blocks_not_in_registration_order :
    cellAnim orderMap orderLayer 0 0 = some (2, some [Frame.mk 2 100])
      ∧ cellAnim orderMap orderLayer 0 1 = some (1, some [Frame.mk 2 100])
      ∧ (orderMap.tilesetAt 2).name = "Alpha" ∧ (orderMap.tilesetAt 1).name = "Beta"
      ∧ trailer stdEnv orderMap (traverse stdEnv orderMap).animationMap
        = ["\tproperty string beta_2: \"\"",
           "\tSequentialAnimation\x7b",
           "\t\trunning:true",
           "\t\tloops: Animation.Infinite",
           "\t\tScriptAction\x7bscript:beta_2=\"beta_2.png\"\x7d",
           "\t\tPauseAnimation\x7bduration:100\x7d",
           "\t\x7d",
           "\tproperty string alpha_2: \"\"",
           "\tSequentialAnimation\x7b",
           "\t\trunning:true",
           "\t\tloops: Animation.Infinite",
           "\t\tScriptAction\x7bscript:alpha_2=\"alpha_2.png\"\x7d",
           "\t\tPauseAnimation\x7bduration:100\x7d",
           "\t\x7d"] := by
  decide

/-- Claim C9, amended: the trailer is the animation blocks of `animationMap` in
its iteration order, which is ascending tileset address: the entries of the
map have strictly ascending keys, and in the list of emitted blocks no block
of a tileset with a higher address comes before a block of a tileset with a
lower address, whatever the order in which the cells were met. -/
theorem blocks_follow_key_order (env : Env) (m : TileMap) :
    ((traverse env m).animationMap.map Prod.fst).Pairwise (fun a b => a < b)
      ∧ (trailerBlocks env m (traverse env m).animationMap).Pairwise
          (fun b1 b2 => b1.1 ≤ b2.1)
      ∧ trailer env m (traverse env m).animationMap
        = ((trailerBlocks env m (traverse env m).animationMap).map Prod.snd).flatten := by
  have hs := keysSorted_traverse env m
  refine ⟨?_, ?_, trailer_eq_blocks env m _⟩
  · rw [List.pairwise_map]
    exact hs
  · unfold trailerBlocks
    rw [List.pairwise_flatMap]
    constructor
    · intro e _
      rw [List.pairwise_map]
      exact List.pairwise_of_forall (fun _ _ => le_refl _)
    · refine List.Pairwise.imp ?_ hs
      intro e1 e2 h b1 hb1 b2 hb2
      simp only [List.mem_map] at hb1 hb2
      obtain ⟨_, _, rfl⟩ := hb1
      obtain ⟨_, _, rfl⟩ := hb2
      exact le_of_lt h

/-! ## The manifest -/

theorem assetLoop_eq_some (env : Env) (m : TileMap) :
    ∀ (u : List (Option TileRef)) (names : List String),
      assetLoop env m u = some names
        ↔ ∃ ts : List TileRef, u = ts.map some ∧ names = ts.map (imageAssetName env m)
  | [], names => by
    simp only [assetLoop, Option.some.injEq]
    constructor
    · rintro rfl
      exact ⟨[], rfl, rfl⟩
    · rintro ⟨ts, h1, h2⟩
      cases ts with
      | nil => exact h2.symm
      | cons t ts => cases h1
  | none :: u, names => by
    simp only [assetLoop]
    constructor
    · intro h
      cases h
    · rintro ⟨ts, h1, _⟩
      cases ts with
      | nil => cases h1
      | cons t ts => cases h1
  | some t :: u, names => by
    simp only [assetLoop]
    cases h : assetLoop env m u with
    | none =>
      refine ⟨fun h0 => (by cases h0), ?_⟩
      rintro ⟨ts, h1, _⟩
      cases ts with
      | nil => cases h1
      | cons t1 ts =>
        simp only [List.map_cons, List.cons.injEq] at h1
        have := (assetLoop_eq_some env m u (ts.map (imageAssetName env m))).2 ⟨ts, h1.2, rfl⟩
        rw [h] at this
        cases this
    | some rest =>
      obtain ⟨ts, h1, h2⟩ := (assetLoop_eq_some env m u rest).1 h
      simp only [Option.some.injEq]
      constructor
      · rintro rfl
        exact ⟨t :: ts, by simp [h1], by simp [h2]⟩
      · rintro ⟨ts1, h3, h4⟩
        cases ts1 with
        | nil => cases h3
        | cons t1 ts1 =>
          simp only [List.map_cons, List.cons.injEq, Option.some.injEq] at h3
          have hts : ts1 = ts := by
            have := h3.2
            rw [h1] at this
            exact (List.map_injective_iff.2 (Option.some_injective _) this).symm
          rw [h4, h2, hts, ← h3.1, List.map_cons]

/-- The asset loop runs through exactly when `uniqueTiles` has no null member. -/
theorem assetLoop_isSome (env : Env) (m : TileMap) :
    ∀ u : List (Option TileRef), (assetLoop env m u).isSome = true ↔ none ∉ u
  | [] => by simp [assetLoop]
  | none :: u => by simp [assetLoop]
  | some t :: u => by
    have ih := assetLoop_isSome env m u
    simp only [assetLoop]
    cases h : assetLoop env m u with
    | none => simpa [h] using ih
    | some rest => simpa [h] using ih

/-- The list handed to `exportQRC` does not depend on the order in which the
loop over `uniqueTiles` meets the members of the set. -/
theorem assetList_of_perm (env : Env) (m : TileMap) (mapPrefix : String)
    (u1 u2 : List (Option TileRef)) (hp : u1.Perm u2) :
    assetList env m mapPrefix u1 = assetList env m mapPrefix u2 := by
  unfold assetList
  cases h1 : assetLoop env m u1 with
  | none =>
    have hn : none ∈ u1 := by
      by_contra hn
      have := (assetLoop_isSome env m u1).2 hn
      rw [h1] at this
      cases this
    have hn2 : ¬ none ∉ u2 := fun h => h (hp.subset hn)
    cases h2 : assetLoop env m u2 with
    | none => rfl
    | some names =>
      have := (assetLoop_isSome env m u2).1 (by rw [h2]; rfl)
      exact absurd this hn2
  | some names1 =>
    obtain ⟨ts1, ht1, hn1⟩ := (assetLoop_eq_some env m u1 names1).1 h1
    have hnone : none ∉ u2 := by
      intro hn
      have := hp.symm.subset hn
      rw [ht1] at this
      simp at this
    cases h2 : assetLoop env m u2 with
    | none =>
      have := (assetLoop_isSome env m u2).2 hnone
      rw [h2] at this
      cases this
    | some names2 =>
      obtain ⟨ts2, ht2, hn2⟩ := (assetLoop_eq_some env m u2 names2).1 h2
      have hts : ts1.Perm ts2 := by
        have := hp.filterMap id
        rw [ht1, ht2] at this
        simpa [List.filterMap_map] using this
      simp only [Option.some.injEq]
      apply qSort_of_perm
      rw [hn1, hn2]
      exact (hts.map _).cons _

/-- Claim C6: whenever `exportMap` reaches `exportQRC`, the list it hands over is
in non-decreasing ordinal order (no later entry is less than an earlier one),
and the manifest holds, between its fixed opening and closing lines, one
`<file>` line per entry of the list, in the order of the list. -/
theorem manifest_sorted (env : Env) (mapPrefix : String) (m : TileMap) (assets : List String)
    (h : (exportMap env mapPrefix m).assets = some assets) :
    assets.Pairwise (fun a b => qLess b a = false)
      ∧ (exportMap env mapPrefix m).manifest
        = some (["<!--", ""] ++ printHeader env
            ++ ["-->", "<RCC>", "    <qresource prefix=\"/\">"]
            ++ assets.map (fun asset => "        <file>" ++ asset ++ "</file>")
            ++ ["    </qresource>", "</RCC>"]) := by
  simp only [exportMap] at h ⊢
  constructor
  · unfold manifestEntries assetList at h
    split at h
    · cases h
    · rw [← Option.some.inj h]
      exact qSort_sorted _
  · rw [h]
    rfl

theorem manifest_sorted_witness :
    (exportMap stdEnv "Ground" exampleMap).assets
        = some ["GroundMap.qml", "base_3.png", "base_5.png", "base_6.png"]
      ∧ (["GroundMap.qml", "base_3.png", "base_5.png", "base_6.png"].Pairwise
            (fun a b => qLess b a = false)
          ∧ (exportMap stdEnv "Ground" exampleMap).manifest
            = some (["<!--", ""] ++ printHeader stdEnv
                ++ ["-->", "<RCC>", "    <qresource prefix=\"/\">"]
                ++ ["GroundMap.qml", "base_3.png", "base_5.png", "base_6.png"].map
                    (fun asset => "        <file>" ++ asset ++ "</file>")
                ++ ["    </qresource>", "</RCC>"])) :=
  ⟨by decide, manifest_sorted stdEnv "Ground" exampleMap _ (by decide)⟩

theorem mapFile_ne_imageAssetName (env : Env) (m : TileMap) (mapPrefix : String)
    (tile : TileRef) : argStr "%1Map.qml" mapPrefix ≠ imageAssetName env m tile := by
  intro h
  obtain ⟨front, hf⟩ := imageAssetName_suffix env m tile
  rw [← h, argStr_mapFile] at hf
  have := congrArg List.reverse hf
  simp at this

/-- Claim C5, as stated, fails: in `dupMap` the tilesets "Base" and "base" both
contribute tile 3, and the list handed to `exportQRC` holds "base_3.png" twice. -/
theorem manifest_repeats_file_name :
    (exportMap stdEnv "Dup" dupMap).assets = some ["DupMap.qml", "base_3.png", "base_3.png"]
      ∧ ¬ ["DupMap.qml", "base_3.png", "base_3.png"].Nodup := by
  constructor <;> decide

theorem assets_nodup_iff (env : Env) (mapPrefix : String) (m : TileMap)
    (assets : List String) (h : (exportMap env mapPrefix m).assets = some assets) :
    assets.Nodup
      ↔ ∀ t1 t2 : TileRef, some t1 ∈ (traverse env m).uniqueTiles →
          some t2 ∈ (traverse env m).uniqueTiles →
          imageAssetName env m t1 = imageAssetName env m t2 → t1 = t2 := by
  have hnd : (traverse env m).uniqueTiles.Nodup := nodup_uniqueTiles env m
  simp only [exportMap, manifestEntries, assetList] at h
  cases hl : assetLoop env m (traverse env m).uniqueTiles with
  | none =>
    rw [hl] at h
    cases h
  | some names =>
    rw [hl] at h
    obtain ⟨ts, hts, hnames⟩ := (assetLoop_eq_some env m _ names).1 hl
    have hts_nd : ts.Nodup := by
      rw [hts] at hnd
      exact List.Nodup.of_map _ hnd
    have hmem : ∀ t : TileRef, some t ∈ (traverse env m).uniqueTiles ↔ t ∈ ts := by
      intro t
      rw [hts, List.mem_map]
      constructor
      · rintro ⟨t1, h1, h2⟩
        cases h2
        exact h1
      · exact fun h1 => ⟨t, h1, rfl⟩
    have hfile : argStr "%1Map.qml" mapPrefix ∉ names := by
      rw [hnames, List.mem_map]
      rintro ⟨t, _, h1⟩
      exact mapFile_ne_imageAssetName env m mapPrefix t h1.symm
    rw [← Option.some.inj h, (qSort_perm _).nodup_iff, List.nodup_cons, hnames,
      List.nodup_map_iff_inj_on hts_nd]
    constructor
    · rintro ⟨_, hinj⟩ t1 t2 h1 h2 h3
      exact hinj t1 ((hmem t1).1 h1) t2 ((hmem t2).1 h2) h3
    · intro hinj
      refine ⟨?_, fun t1 h1 t2 h2 h3 => hinj t1 t2 ((hmem t1).2 h1) ((hmem t2).2 h2) h3⟩
      rw [← hnames]
      exact hfile

/-- Claim C5, amended: whenever `exportMap` reaches `exportQRC`, the list it hands
over holds no file name twice exactly when no two different tiles of
`uniqueTiles` get the same file name (the set holds each tile once and the
scene file name differs from every image name, so nothing else can repeat);
in particular it holds none twice when the lower-cased tileset names hold no
percent sign and the tilesets of the tiles in the set have pairwise different
identifiers. -/
theorem manifest_nodup_iff (env : Env) (mapPrefix : String) (m : TileMap)
    (assets : List String) (h : (exportMap env mapPrefix m).assets = some assets) :
    (assets.Nodup
        ↔ ∀ t1 t2 : TileRef, some t1 ∈ (traverse env m).uniqueTiles →
            some t2 ∈ (traverse env m).uniqueTiles →
            imageAssetName env m t1 = imageAssetName env m t2 → t1 = t2)
      ∧ ((∀ a, '%' ∉ (env.toLower (m.tilesetAt a).name).data) →
          (∀ t1 t2 : TileRef, some t1 ∈ (traverse env m).uniqueTiles →
            some t2 ∈ (traverse env m).uniqueTiles →
            baseId env (m.tilesetAt t1.tileset).name = baseId env (m.tilesetAt t2.tileset).name →
            t1.tileset = t2.tileset) →
          assets.Nodup) := by
  refine ⟨assets_nodup_iff env mapPrefix m assets h, ?_⟩
  intro hplain hdistinct
  rw [assets_nodup_iff env mapPrefix m assets h]
  intro t1 t2 h1 h2 h3
  obtain ⟨hb, hi⟩ := imageAssetName_plain_inj env m t1 t2 (hplain _) (hplain _) h3
  have ht := hdistinct t1 t2 h1 h2 hb
  cases t1
  cases t2
  simp only at ht hi
  rw [ht, hi]

theorem manifest_nodup_iff_witness :
    (exportMap stdEnv "Ground" exampleMap).assets
        = some ["GroundMap.qml", "base_3.png", "base_5.png", "base_6.png"]
      ∧ ((["GroundMap.qml", "base_3.png", "base_5.png", "base_6.png"].Nodup
          ↔ ∀ t1 t2 : TileRef, some t1 ∈ (traverse stdEnv exampleMap).uniqueTiles →
              some t2 ∈ (traverse stdEnv exampleMap).uniqueTiles →
              imageAssetName stdEnv exampleMap t1 = imageAssetName stdEnv exampleMap t2 →
              t1 = t2)
        ∧ ((∀ a, '%' ∉ (stdEnv.toLower (exampleMap.tilesetAt a).name).data) →
            (∀ t1 t2 : TileRef, some t1 ∈ (traverse stdEnv exampleMap).uniqueTiles →
              some t2 ∈ (traverse stdEnv exampleMap).uniqueTiles →
              baseId stdEnv (exampleMap.tilesetAt t1.tileset).name
                = baseId stdEnv (exampleMap.tilesetAt t2.tileset).name →
              t1.tileset = t2.tileset) →
            ["GroundMap.qml", "base_3.png", "base_5.png", "base_6.png"].Nodup)) :=
  ⟨by decide, manifest_nodup_iff stdEnv "Ground" exampleMap _ (by decide)⟩

/-- For tileset names whose lower-cased form holds no percent sign, the
manifest is complete: whenever `exportMap` reaches `exportQRC`, the list it
hands over holds the file name of every static placement, the file name every
animation step assigns, and the name of the scene document. -/
theorem manifest_complete_of_plain_names (env : Env) (mapPrefix : String) (m : TileMap)
    (assets : List String)
    (hplain : ∀ a, '%' ∉ (env.toLower (m.tilesetAt a).name).data)
    (h : (exportMap env mapPrefix m).assets = some assets) :
    (∀ layer ∈ m.tileLayers, ∀ (y x a : Nat) (tile : Tile),
        y < layer.height → x < layer.width → (layer.cellAt x y).tileset = some a →
        (m.tilesetAt a).tileAt (layer.cellAt x y).tileId = some tile →
        tile.isAnimated = false →
        staticId env (m.tilesetAt a).name tile.id ++ ".png" ∈ assets)
      ∧ (∀ e ∈ (traverse env m).animationMap, ∀ animation ∈ e.2, ∀ frame ∈ animation,
          baseId env (m.tilesetAt e.1).name ++ "_" ++ decInt frame.tileId ++ ".png" ∈ assets)
      ∧ mapPrefix ++ "Map.qml" ∈ assets := by
  simp only [exportMap, manifestEntries, assetList] at h
  cases hl : assetLoop env m (traverse env m).uniqueTiles with
  | none =>
    rw [hl] at h
    cases h
  | some names =>
    rw [hl] at h
    obtain ⟨ts, hts, hnames⟩ := (assetLoop_eq_some env m _ names).1 hl
    have hassets : ∀ t : TileRef, some t ∈ (traverse env m).uniqueTiles →
        baseId env (m.tilesetAt t.tileset).name ++ "_" ++ decInt t.id ++ ".png" ∈ assets := by
      intro t ht
      rw [← Option.some.inj h, mem_qSort, ← imageAssetName_plain env m t (hplain _), hnames]
      refine List.mem_cons_of_mem _ (List.mem_map.2 ⟨t, ?_, rfl⟩)
      rw [hts, List.mem_map] at ht
      obtain ⟨t1, h1, h2⟩ := ht
      cases h2
      exact h1
    refine ⟨?_, ?_, ?_⟩
    · intro layer hl y x a tile hy hx h1 h2 h3
      have hmem : some (TileRef.mk a tile.id) ∈ (traverse env m).uniqueTiles :=
        (mem_uniqueTiles env m _).2 (Or.inl ⟨layer, hl, y, x, a, tile, hy, hx, h1, h2, h3, rfl⟩)
      rw [staticId_plain env _ _ (hplain a)]
      exact hassets _ hmem
    · intro e he animation ha frame hf
      have hmem : tilePtr m e.1 frame.tileId ∈ (traverse env m).uniqueTiles :=
        (mem_uniqueTiles env m _).2 (Or.inr ⟨e, he, animation, ha, frame, hf, rfl⟩)
      unfold tilePtr at hmem
      cases htile : (m.tilesetAt e.1).tileAt frame.tileId with
      | none =>
        rw [htile, hts] at hmem
        simp at hmem
      | some tile =>
        rw [htile] at hmem
        have := hassets _ hmem
        simp only [Option.map_some', tileAt_id _ _ _ htile] at this
        simpa [tileAt_id _ _ _ htile] using this
    · rw [← Option.some.inj h, mem_qSort, argStr_mapFile]
      exact List.mem_cons_self _ _

/-! ## Identifiers and file names that collide -/

/-- Claim C3 fails on the code: in `clashMap` the frame sequences [(5,100)] and
[(5,200)] differ and are both recorded, yet both cells are bound to the
identifier `base_5` and the trailer declares the property `base_5` twice. -/
theorem animation_ids_clash :
    [Frame.mk 5 100] ≠ [Frame.mk 5 200]
      ∧ qmapValue 0 (traverse stdEnv clashMap).animationMap
        = [[Frame.mk 5 100], [Frame.mk 5 200]]
      ∧ animationId stdEnv [Frame.mk 5 100] (baseId stdEnv "Base")
        = animationId stdEnv [Frame.mk 5 200] (baseId stdEnv "Base")
      ∧ (exportMap stdEnv "Clash" clashMap).scene
        = sceneOpening stdEnv clashMap
          ++ ["\tItem \x7b",
              "\t\tid: l",
              "\t\tImage\x7bx:0;y:0;source:base_5\x7d",
              "\t\tImage\x7bx:16;y:0;source:base_5\x7d",
              "\t\x7d",
              "\tproperty string base_5: \"\"",
              "\tSequentialAnimation\x7b",
              "\t\trunning:true",
              "\t\tloops: Animation.Infinite",
              "\t\tScriptAction\x7bscript:base_5=\"base_5.png\"\x7d",
              "\t\tPauseAnimation\x7bduration:100\x7d",
              "\t\x7d",
              "\tproperty string base_5: \"\"",
              "\tSequentialAnimation\x7b",
              "\t\trunning:true",
              "\t\tloops: Animation.Infinite",
              "\t\tScriptAction\x7bscript:base_5=\"base_5.png\"\x7d",
              "\t\tPauseAnimation\x7bduration:200\x7d",
              "\t\x7d",
              "\x7d"] := by
  refine ⟨by decide, by decide, by decide, by decide⟩

/-- Claim C1 fails on the code: in `markerMap` every frame resolves, the
animation block assigns the file name "%1_5.png", and the list handed to
`exportQRC` is "5_%2.png", "MarkMap.qml": the chained `arg` of line 228 put
the tile id into the place marker of the tileset name. -/
theorem manifest_misses_marker_name :
    none ∉ (traverse stdEnv markerMap).uniqueTiles
      ∧ (exportMap stdEnv "Mark" markerMap).scene
        = sceneOpening stdEnv markerMap
          ++ ["\tItem \x7b",
              "\t\tid: l",
              "\t\tImage\x7bx:0;y:0;source:%1_5\x7d",
              "\t\x7d",
              "\tproperty string %1_5: \"\"",
              "\tSequentialAnimation\x7b",
              "\t\trunning:true",
              "\t\tloops: Animation.Infinite",
              "\t\tScriptAction\x7bscript:%1_5=\"%1_5.png\"\x7d",
              "\t\tPauseAnimation\x7bduration:100\x7d",
              "\t\x7d",
              "\x7d"]
      ∧ (exportMap stdEnv "Mark" markerMap).assets = some ["5_%2.png", "MarkMap.qml"]
      ∧ "%1_5.png" ∉ ["5_%2.png", "MarkMap.qml"] := by
  refine ⟨by decide, by decide, by decide, by decide⟩

/-! ## The worked example of the spec -/

/-- Claim C7, as stated, fails: the manifest entries of the example map are not in
the order "base_3.png", "base_5.png", "base_6.png", "GroundMap.qml". -/
theorem example_manifest_not_in_spec_order :
    manifestEntries stdEnv exampleMap "Ground"
      ≠ some ["base_3.png", "base_5.png", "base_6.png", "GroundMap.qml"] := by
  decide

/-- Claim C7, amended: for the example map the list handed to `exportQRC` is
"GroundMap.qml", "base_3.png", "base_5.png", "base_6.png" in this order (the
upper-case G sorts before the lower-case b), and the manifest has one `<file>`
line for each, in that order. -/
theorem example_manifest_entries :
    (exportMap stdEnv "Ground" exampleMap).assets
        = some ["GroundMap.qml", "base_3.png", "base_5.png", "base_6.png"]
      ∧ (exportMap stdEnv "Ground" exampleMap).manifest
        = some (["<!--", ""] ++ printHeader stdEnv
            ++ ["-->", "<RCC>", "    <qresource prefix=\"/\">",
                "        <file>GroundMap.qml</file>",
                "        <file>base_3.png</file>",
                "        <file>base_5.png</file>",
                "        <file>base_6.png</file>",
                "    </qresource>", "</RCC>"]) := by
  constructor <;> decide

/-- Claim C8: the scene document of the example map is the opening lines, one
layer block with id `ground_layer` holding the static placement of tile 3 at
(0,0) and the bound placement `base_5_6` at (16,0), and one animation block
that declares `base_5_6`, loops forever and steps through "base_5.png", a
pause of 100, "base_6.png", a pause of 100. -/
theorem example_scene_lines :
    (exportMap stdEnv "Ground" exampleMap).scene
      = sceneOpening stdEnv exampleMap
        ++ ["\tItem \x7b",
            "\t\tid: ground_layer",
            "\t\tImage\x7bx:0;y:0;source:\"base_3.png\"\x7d",
            "\t\tImage\x7bx:16;y:0;source:base_5_6\x7d",
            "\t\x7d",
            "\tproperty string base_5_6: \"\"",
            "\tSequentialAnimation\x7b",
            "\t\trunning:true",
            "\t\tloops: Animation.Infinite",
            "\t\tScriptAction\x7bscript:base_5_6=\"base_5.png\"\x7d",
            "\t\tPauseAnimation\x7bduration:100\x7d",
            "\t\tScriptAction\x7bscript:base_5_6=\"base_6.png\"\x7d",
            "\t\tPauseAnimation\x7bduration:100\x7d",
            "\t\x7d",
            "\x7d"] := by
  decide

/-! ## Animation identifiers -/

/-- The `arg` of line 165 and line 200 puts the decimal tile id after "_". -/
theorem argInt_underscore (env : Env) (n : Int) : argInt env "_%1" n = "_" ++ decInt n := by
  apply String.ext
  have h : scanArg "_%1".data
      = [ArgPiece.text '_', ArgPiece.marker 1 false ['%', '1']] := by decide
  simp [argInt, argFill, h, minMarker, fillPiece]

theorem animationId_eq (env : Env) :
    ∀ (frames : List Frame) (id : String),
      animationId env frames id = id ++ tileIdSuffix frames
  | [], id => by
    apply String.ext
    simp [animationId, tileIdSuffix]
  | frame :: rest, id => by
    rw [animationId, animationId_eq env rest, argInt_underscore, tileIdSuffix]
    simp only [String.append_assoc]

theorem tileIdSuffix_congr :
    ∀ s1 s2 : List Frame, s1.map Frame.tileId = s2.map Frame.tileId →
      tileIdSuffix s1 = tileIdSuffix s2
  | [], [], _ => rfl
  | [], _ :: _, h => by cases h
  | _ :: _, [], h => by cases h
  | f1 :: r1, f2 :: r2, h => by
    simp only [List.map_cons, List.cons.injEq] at h
    rw [tileIdSuffix, tileIdSuffix, h.1, tileIdSuffix_congr r1 r2 h.2]

theorem tileIdSuffix_head (s : List Frame) (c : Char)
    (h : (tileIdSuffix s).data.head? = some c) : c = '_' := by
  cases s with
  | nil => cases h
  | cons f r =>
    simp only [tileIdSuffix, String.data_append] at h
    simpa using h.symm

/-- Two texts that each consist of a part free of the separator followed by
nothing or by the separator agree only part by part. -/
theorem split_at_first {α : Type} (c : α) :
    ∀ (d1 d2 r1 r2 : List α), c ∉ d1 → c ∉ d2 →
      (∀ e, r1.head? = some e → e = c) → (∀ e, r2.head? = some e → e = c) →
      d1 ++ r1 = d2 ++ r2 → d1 = d2 ∧ r1 = r2
  | [], [], _, _, _, _, _, _, h => ⟨rfl, h⟩
  | [], e :: d2, r1, r2, _, h2, hr1, _, h => by
    simp only [List.nil_append, List.cons_append] at h
    have := hr1 e (by rw [h]; rfl)
    exact absurd (this ▸ List.mem_cons_self _ _) h2
  | e :: d1, [], r1, r2, h1, _, _, hr2, h => by
    simp only [List.nil_append, List.cons_append] at h
    have := hr2 e (by rw [← h]; rfl)
    exact absurd (this ▸ List.mem_cons_self _ _) h1
  | e1 :: d1, e2 :: d2, r1, r2, h1, h2, hr1, hr2, h => by
    simp only [List.cons_append, List.cons.injEq] at h
    obtain ⟨h3, h4⟩ := split_at_first c d1 d2 r1 r2
      (fun hc => h1 (List.mem_cons_of_mem _ hc)) (fun hc => h2 (List.mem_cons_of_mem _ hc))
      hr1 hr2 h.2
    exact ⟨by rw [h.1, h3], h4⟩

theorem tileIdSuffix_inj :
    ∀ s1 s2 : List Frame, (tileIdSuffix s1).data = (tileIdSuffix s2).data →
      s1.map Frame.tileId = s2.map Frame.tileId
  | [], [], _ => rfl
  | [], f :: r, h => by
    simp only [tileIdSuffix, String.data_append] at h
    cases h
  | f :: r, [], h => by
    simp only [tileIdSuffix, String.data_append] at h
    cases h
  | f1 :: r1, f2 :: r2, h => by
    simp only [tileIdSuffix, String.data_append] at h
    rw [List.append_assoc, List.append_assoc, List.singleton_append,
      List.singleton_append, List.cons.injEq] at h
    obtain ⟨h3, h4⟩ := split_at_first '_' _ _ _ _ (decInt_no_underscore _)
      (decInt_no_underscore _) (tileIdSuffix_head r1) (tileIdSuffix_head r2) h.2
    have hid : f1.tileId = f2.tileId := decInt_injective _ _ (String.ext h3)
    simp only [List.map_cons, hid, tileIdSuffix_inj r1 r2 h4]

theorem cellLine_animated (env : Env) (m : TileMap) (layer : TileLayer) (y x a : Nat)
    (tile : Tile) (h1 : (layer.cellAt x y).tileset = some a)
    (h2 : (m.tilesetAt a).tileAt (layer.cellAt x y).tileId = some tile)
    (h3 : tile.isAnimated = true) :
    cellLine env m layer y x
      = some (animatedLine m x y (baseId env (m.tilesetAt a).name ++ tileIdSuffix tile.frames)) := by
  unfold cellLine
  simp [h1, h2, h3, animationId_eq]

theorem animationBlock_head (env : Env) (name : String) (frames : List Frame) :
    (animationBlock env name frames).head?
      = some ("\tproperty string " ++ (baseId env name ++ tileIdSuffix frames) ++ ": \"\"") := by
  simp [animationBlock, animationId_eq]

/-- Claim C13: the name bound in the placement of an animated cell is the
lower-cased tileset name with spaces turned into underscores, followed by "_"
and the decimal tile id of every frame in order; it is the name of the
property that the animation block of the sequence declares; a sequence with
the same tile ids and other durations gives the same text; and tileset
"Water" with frame tile ids 4, 5, 6 gives "water_4_5_6". -/
theorem animation_identifier_format (env : Env) (m : TileMap) (layer : TileLayer)
    (y x a : Nat) (tile : Tile) (h1 : (layer.cellAt x y).tileset = some a)
    (h2 : (m.tilesetAt a).tileAt (layer.cellAt x y).tileId = some tile)
    (h3 : tile.isAnimated = true) :
    cellLine env m layer y x
        = some ("\t\tImage\x7bx:" ++ decInt (intMul x m.tileWidth) ++ ";y:"
            ++ decInt (intMul y m.tileHeight) ++ ";source:"
            ++ (baseId env (m.tilesetAt a).name ++ tileIdSuffix tile.frames) ++ "\x7d")
      ∧ animationId env tile.frames (baseId env (m.tilesetAt a).name)
        = replaceSpaces (env.toLower (m.tilesetAt a).name) ++ tileIdSuffix tile.frames
      ∧ (animationBlock env (m.tilesetAt a).name tile.frames).head?
        = some ("\tproperty string "
            ++ (baseId env (m.tilesetAt a).name ++ tileIdSuffix tile.frames) ++ ": \"\"")
      ∧ (∀ frames : List Frame, frames.map Frame.tileId = tile.frames.map Frame.tileId →
          tileIdSuffix frames = tileIdSuffix tile.frames)
      ∧ animationId stdEnv [Frame.mk 4 100, Frame.mk 5 200, Frame.mk 6 300]
          (baseId stdEnv "Water") = "water_4_5_6" := by
  refine ⟨?_, ?_, animationBlock_head env _ _, ?_, by decide⟩
  · rw [cellLine_animated env m layer y x a tile h1 h2 h3]
    rfl
  · rw [animationId_eq]
    rfl
  · exact fun frames h => tileIdSuffix_congr _ _ h

theorem animation_identifier_format_witness :
    (groundLayer.cellAt 1 0).tileset = some 0
      ∧ (exampleMap.tilesetAt 0).tileAt (groundLayer.cellAt 1 0).tileId
        = some (Tile.mk 7 [Frame.mk 5 100, Frame.mk 6 100])
      ∧ (Tile.mk 7 [Frame.mk 5 100, Frame.mk 6 100]).isAnimated = true
      ∧ (cellLine stdEnv exampleMap groundLayer 0 1
          = some ("\t\tImage\x7bx:" ++ decInt (intMul (1 : Nat) exampleMap.tileWidth) ++ ";y:"
              ++ decInt (intMul (0 : Nat) exampleMap.tileHeight) ++ ";source:"
              ++ (baseId stdEnv (exampleMap.tilesetAt 0).name
                  ++ tileIdSuffix (Tile.mk 7 [Frame.mk 5 100, Frame.mk 6 100]).frames)
              ++ "\x7d")
        ∧ animationId stdEnv (Tile.mk 7 [Frame.mk 5 100, Frame.mk 6 100]).frames
            (baseId stdEnv (exampleMap.tilesetAt 0).name)
          = replaceSpaces (stdEnv.toLower (exampleMap.tilesetAt 0).name)
              ++ tileIdSuffix (Tile.mk 7 [Frame.mk 5 100, Frame.mk 6 100]).frames
        ∧ (animationBlock stdEnv (exampleMap.tilesetAt 0).name
              (Tile.mk 7 [Frame.mk 5 100, Frame.mk 6 100]).frames).head?
          = some ("\tproperty string "
              ++ (baseId stdEnv (exampleMap.tilesetAt 0).name
                  ++ tileIdSuffix (Tile.mk 7 [Frame.mk 5 100, Frame.mk 6 100]).frames)
              ++ ": \"\"")
        ∧ (∀ frames : List Frame,
            frames.map Frame.tileId
                = (Tile.mk 7 [Frame.mk 5 100, Frame.mk 6 100]).frames.map Frame.tileId →
              tileIdSuffix frames
                = tileIdSuffix (Tile.mk 7 [Frame.mk 5 100, Frame.mk 6 100]).frames)
        ∧ animationId stdEnv [Frame.mk 4 100, Frame.mk 5 200, Frame.mk 6 300]
            (baseId stdEnv "Water") = "water_4_5_6") :=
  ⟨by decide, by decide, by decide,
    animation_identifier_format stdEnv exampleMap groundLayer 0 1 0
      (Tile.mk 7 [Frame.mk 5 100, Frame.mk 6 100]) (by decide) (by decide) (by decide)⟩

/-- Claim C14: two cells of a map that show animated tiles of the same tileset
with equal frame sequences are bound to the same identifier, wherever the
cells lie: both placement lines carry the identifier generated from the first
cell's sequence. -/
theorem equal_sequences_same_identifier (env : Env) (m : TileMap)
    (layer1 layer2 : TileLayer) (y1 x1 y2 x2 a : Nat) (tile1 tile2 : Tile)
    (h1 : (layer1.cellAt x1 y1).tileset = some a)
    (h2 : (m.tilesetAt a).tileAt (layer1.cellAt x1 y1).tileId = some tile1)
    (h3 : tile1.isAnimated = true)
    (k1 : (layer2.cellAt x2 y2).tileset = some a)
    (k2 : (m.tilesetAt a).tileAt (layer2.cellAt x2 y2).tileId = some tile2)
    (k3 : tile2.isAnimated = true)
    (heq : tile1.frames = tile2.frames) :
    animationId env tile1.frames (baseId env (m.tilesetAt a).name)
        = animationId env tile2.frames (baseId env (m.tilesetAt a).name)
      ∧ cellLine env m layer1 y1 x1
        = some (animatedLine m x1 y1
            (animationId env tile1.frames (baseId env (m.tilesetAt a).name)))
      ∧ cellLine env m layer2 y2 x2
        = some (animatedLine m x2 y2
            (animationId env tile1.frames (baseId env (m.tilesetAt a).name))) := by
  refine ⟨by rw [heq], ?_, ?_⟩
  · rw [cellLine_animated env m layer1 y1 x1 a tile1 h1 h2 h3, animationId_eq]
  · rw [cellLine_animated env m layer2 y2 x2 a tile2 k1 k2 k3, animationId_eq, heq]

theorem equal_sequences_same_identifier_witness :
    (twinLayer.cellAt 0 0).tileset = some 0
      ∧ (twinMap.tilesetAt 0).tileAt (twinLayer.cellAt 0 0).tileId
        = some (Tile.mk 1 [Frame.mk 5 100])
      ∧ (Tile.mk 1 [Frame.mk 5 100]).isAnimated = true
      ∧ (twinLayer.cellAt 1 0).tileset = some 0
      ∧ (twinMap.tilesetAt 0).tileAt (twinLayer.cellAt 1 0).tileId
        = some (Tile.mk 2 [Frame.mk 5 100])
      ∧ (Tile.mk 2 [Frame.mk 5 100]).isAnimated = true
      ∧ (Tile.mk 1 [Frame.mk 5 100]).frames = (Tile.mk 2 [Frame.mk 5 100]).frames
      ∧ (animationId stdEnv (Tile.mk 1 [Frame.mk 5 100]).frames
            (baseId stdEnv (twinMap.tilesetAt 0).name)
          = animationId stdEnv (Tile.mk 2 [Frame.mk 5 100]).frames
            (baseId stdEnv (twinMap.tilesetAt 0).name)
        ∧ cellLine stdEnv twinMap twinLayer 0 0
          = some (animatedLine twinMap 0 0
              (animationId stdEnv (Tile.mk 1 [Frame.mk 5 100]).frames
                (baseId stdEnv (twinMap.tilesetAt 0).name)))
        ∧ cellLine stdEnv twinMap twinLayer 0 1
          = some (animatedLine twinMap 1 0
              (animationId stdEnv (Tile.mk 1 [Frame.mk 5 100]).frames
                (baseId stdEnv (twinMap.tilesetAt 0).name)))) :=
  ⟨by decide, by decide, by decide, by decide, by decide, by decide, rfl,
    equal_sequences_same_identifier stdEnv twinMap twinLayer
      twinLayer 0 0 0 1 0 (Tile.mk 1 [Frame.mk 5 100])
      (Tile.mk 2 [Frame.mk 5 100]) (by decide) (by decide) (by decide) (by decide)
      (by decide) (by decide) rfl⟩

/-- Claim C19: for one tileset identifier, two frame sequences get the same
animation identifier exactly when their lists of tile ids are equal, for all
integer tile ids; the tile ids 1, 23 and 12, 3 give different identifiers. -/
theorem identifier_injective_on_tile_ids (env : Env) (name : String)
    (frames1 frames2 : List Frame) :
    (animationId env frames1 (baseId env name) = animationId env frames2 (baseId env name)
        ↔ frames1.map Frame.tileId = frames2.map Frame.tileId)
      ∧ animationId stdEnv [Frame.mk 1 100, Frame.mk 23 100] (baseId stdEnv "Base")
        ≠ animationId stdEnv [Frame.mk 12 100, Frame.mk 3 100] (baseId stdEnv "Base") := by
  refine ⟨?_, by decide⟩
  rw [animationId_eq, animationId_eq]
  constructor
  · intro h
    have hd := congrArg String.data h
    simp only [String.data_append] at hd
    exact tileIdSuffix_inj _ _ (List.append_cancel_left hd)
  · intro h
    rw [tileIdSuffix_congr _ _ h]

/-! ## Animation blocks in the trailer -/

theorem flatten_map_mem {α β : Type} (f : α → List β) (x : α) :
    ∀ l : List α, x ∈ l → ∃ pre post, (l.map f).flatten = pre ++ f x ++ post
  | [], h => by cases h
  | y :: l, h => by
    rcases List.mem_cons.1 h with rfl | h
    · exact ⟨[], (l.map f).flatten, by simp⟩
    · obtain ⟨pre, post, hp⟩ := flatten_map_mem f x l h
      exact ⟨f y ++ pre, post, by simp [hp, List.append_assoc]⟩

/-- The block of every recorded frame sequence stands in the trailer. -/
theorem block_in_trailer (env : Env) (m : TileMap) (am : AnimationMap)
    (e : Nat × List (List Frame)) (he : e ∈ am) (animation : List Frame)
    (ha : animation ∈ e.2) :
    ∃ pre post, trailer env m am
      = pre ++ animationBlock env (m.tilesetAt e.1).name animation ++ post := by
  obtain ⟨pre1, post1, h1⟩ := flatten_map_mem (entryBlocks env m) e am he
  obtain ⟨pre2, post2, h2⟩ :=
    flatten_map_mem (animationBlock env (m.tilesetAt e.1).name) animation e.2 ha
  refine ⟨pre1 ++ pre2, post2 ++ post1, ?_⟩
  rw [trailer, h1, entryBlocks, h2]
  simp only [List.append_assoc]

theorem cellAnim_animated (m : TileMap) (layer : TileLayer) (y x a : Nat) (tile : Tile)
    (h1 : (layer.cellAt x y).tileset = some a)
    (h2 : (m.tilesetAt a).tileAt (layer.cellAt x y).tileId = some tile)
    (h3 : tile.isAnimated = true) :
    cellAnim m layer y x = some (a, some tile.frames) := by
  unfold cellAnim
  simp [h1, h2, h3]

theorem length_flatten_pairs {α β : Type} (g h : α → β) :
    ∀ l : List α, ((l.map fun x => [g x, h x]).flatten).length = 2 * l.length
  | [] => rfl
  | x :: l => by
    simp only [List.map_cons, List.flatten_cons, List.length_append, List.length_cons,
      List.length_nil, length_flatten_pairs g h l]
    omega

/-- Claim C12: the block of a frame sequence recorded for a tileset stands in the
scene document and is: the declaration of a string property named after the
identifier of the sequence with initial value "", the opening of a
SequentialAnimation with running:true and loops: Animation.Infinite, then for
every frame in order a ScriptAction line that assigns the property the value
"<base>_<tileId>.png" followed by a PauseAnimation line with the duration of
the frame, then the closing brace; the step lines number twice the frames. -/
theorem animation_block_content (env : Env) (mapPrefix : String) (m : TileMap)
    (e : Nat × List (List Frame)) (he : e ∈ (traverse env m).animationMap)
    (animation : List Frame) (ha : animation ∈ e.2) :
    (∃ pre post, (exportMap env mapPrefix m).scene
        = pre ++ animationBlock env (m.tilesetAt e.1).name animation ++ post)
      ∧ animationBlock env (m.tilesetAt e.1).name animation
        = ["\tproperty string "
              ++ (baseId env (m.tilesetAt e.1).name ++ tileIdSuffix animation) ++ ": \"\"",
            "\tSequentialAnimation\x7b",
            "\t\trunning:true",
            "\t\tloops: Animation.Infinite"]
          ++ (animation.map fun frame =>
                ["\t\tScriptAction\x7bscript:"
                    ++ (baseId env (m.tilesetAt e.1).name ++ tileIdSuffix animation)
                    ++ "=\"" ++ baseId env (m.tilesetAt e.1).name ++ "_"
                    ++ decInt frame.tileId ++ ".png\"\x7d",
                  "\t\tPauseAnimation\x7bduration:" ++ decInt frame.duration ++ "\x7d"]).flatten
          ++ ["\t\x7d"]
      ∧ ((animation.map fun frame =>
            ["\t\tScriptAction\x7bscript:"
                ++ (baseId env (m.tilesetAt e.1).name ++ tileIdSuffix animation)
                ++ "=\"" ++ baseId env (m.tilesetAt e.1).name ++ "_"
                ++ decInt frame.tileId ++ ".png\"\x7d",
              "\t\tPauseAnimation\x7bduration:" ++ decInt frame.duration
                ++ "\x7d"]).flatten).length
        = 2 * animation.length := by
  refine ⟨?_, ?_, length_flatten_pairs _ _ _⟩
  · obtain ⟨pre, post, h⟩ := block_in_trailer env m _ e he animation ha
    refine ⟨(traverse env m).out ++ pre, post ++ ["\x7d"], ?_⟩
    simp only [exportMap, sceneLines, h, List.append_assoc]
  · simp only [animationBlock, animationId_eq]
    rfl

theorem animation_block_content_witness :
    ((0 : Nat), [[Frame.mk 5 100, Frame.mk 6 100]]) ∈ (traverse stdEnv exampleMap).animationMap
      ∧ [Frame.mk 5 100, Frame.mk 6 100]
        ∈ ((0 : Nat), [[Frame.mk 5 100, Frame.mk 6 100]]).2
      ∧ ((∃ pre post, (exportMap stdEnv "Ground" exampleMap).scene
            = pre ++ animationBlock stdEnv (exampleMap.tilesetAt 0).name
                [Frame.mk 5 100, Frame.mk 6 100] ++ post)
        ∧ animationBlock stdEnv (exampleMap.tilesetAt 0).name [Frame.mk 5 100, Frame.mk 6 100]
          = ["\tproperty string "
                ++ (baseId stdEnv (exampleMap.tilesetAt 0).name
                    ++ tileIdSuffix [Frame.mk 5 100, Frame.mk 6 100]) ++ ": \"\"",
              "\tSequentialAnimation\x7b",
              "\t\trunning:true",
              "\t\tloops: Animation.Infinite"]
            ++ ([Frame.mk 5 100, Frame.mk 6 100].map fun frame =>
                  ["\t\tScriptAction\x7bscript:"
                      ++ (baseId stdEnv (exampleMap.tilesetAt 0).name
                          ++ tileIdSuffix [Frame.mk 5 100, Frame.mk 6 100])
                      ++ "=\"" ++ baseId stdEnv (exampleMap.tilesetAt 0).name ++ "_"
                      ++ decInt frame.tileId ++ ".png\"\x7d",
                    "\t\tPauseAnimation\x7bduration:" ++ decInt frame.duration
                      ++ "\x7d"]).flatten
            ++ ["\t\x7d"]
        ∧ (([Frame.mk 5 100, Frame.mk 6 100].map fun frame =>
              ["\t\tScriptAction\x7bscript:"
                  ++ (baseId stdEnv (exampleMap.tilesetAt 0).name
                      ++ tileIdSuffix [Frame.mk 5 100, Frame.mk 6 100])
                  ++ "=\"" ++ baseId stdEnv (exampleMap.tilesetAt 0).name ++ "_"
                  ++ decInt frame.tileId ++ ".png\"\x7d",
                "\t\tPauseAnimation\x7bduration:" ++ decInt frame.duration
                  ++ "\x7d"]).flatten).length
          = 2 * [Frame.mk 5 100, Frame.mk 6 100].length) :=
  ⟨by decide, by decide,
    animation_block_content stdEnv "Ground" exampleMap
      ((0 : Nat), [[Frame.mk 5 100, Frame.mk 6 100]]) (by decide)
      [Frame.mk 5 100, Frame.mk 6 100] (by decide)⟩

/-- Claim C18: the identifier written unquoted as the source of an animated cell
of the map is declared in the trailer: the frame sequence of the cell's tile
is recorded under the cell's tileset, the animation block of that very
sequence stands in the trailer of the scene document, and the property that
block declares has the name the placement is bound to. -/
theorem bound_name_declared (env : Env) (mapPrefix : String) (m : TileMap)
    (layer : TileLayer) (hl : layer ∈ m.tileLayers) (y x a : Nat) (tile : Tile)
    (hy : y < layer.height) (hx : x < layer.width)
    (h1 : (layer.cellAt x y).tileset = some a)
    (h2 : (m.tilesetAt a).tileAt (layer.cellAt x y).tileId = some tile)
    (h3 : tile.isAnimated = true) :
    cellLine env m layer y x
        = some (animatedLine m x y (baseId env (m.tilesetAt a).name ++ tileIdSuffix tile.frames))
      ∧ (∃ e ∈ (traverse env m).animationMap, e.1 = a ∧ tile.frames ∈ e.2)
      ∧ (∃ pre post, trailer env m (traverse env m).animationMap
          = pre ++ animationBlock env (m.tilesetAt a).name tile.frames ++ post)
      ∧ (exportMap env mapPrefix m).scene
        = (traverse env m).out ++ trailer env m (traverse env m).animationMap ++ ["\x7d"]
      ∧ (animationBlock env (m.tilesetAt a).name tile.frames).head?
        = some ("\tproperty string "
            ++ (baseId env (m.tilesetAt a).name ++ tileIdSuffix tile.frames) ++ ": \"\"") := by
  have hrec : ∃ e ∈ (traverse env m).animationMap, e.1 = a ∧ tile.frames ∈ e.2 :=
    (recorded_iff env m a tile.frames).2
      ⟨layer, hl, y, x, hy, hx, cellAnim_animated m layer y x a tile h1 h2 h3⟩
  refine ⟨cellLine_animated env m layer y x a tile h1 h2 h3, hrec, ?_, rfl,
    animationBlock_head env _ _⟩
  obtain ⟨e, he, hea, hf⟩ := hrec
  subst hea
  exact block_in_trailer env m _ e he tile.frames hf

theorem bound_name_declared_witness :
    groundLayer ∈ exampleMap.tileLayers ∧ 0 < groundLayer.height ∧ 1 < groundLayer.width
      ∧ (groundLayer.cellAt 1 0).tileset = some 0
      ∧ (exampleMap.tilesetAt 0).tileAt (groundLayer.cellAt 1 0).tileId
        = some (Tile.mk 7 [Frame.mk 5 100, Frame.mk 6 100])
      ∧ (Tile.mk 7 [Frame.mk 5 100, Frame.mk 6 100]).isAnimated = true
      ∧ (cellLine stdEnv exampleMap groundLayer 0 1
          = some (animatedLine exampleMap 1 0
              (baseId stdEnv (exampleMap.tilesetAt 0).name
                ++ tileIdSuffix (Tile.mk 7 [Frame.mk 5 100, Frame.mk 6 100]).frames))
        ∧ (∃ e ∈ (traverse stdEnv exampleMap).animationMap,
            e.1 = 0 ∧ (Tile.mk 7 [Frame.mk 5 100, Frame.mk 6 100]).frames ∈ e.2)
        ∧ (∃ pre post, trailer stdEnv exampleMap (traverse stdEnv exampleMap).animationMap
            = pre ++ animationBlock stdEnv (exampleMap.tilesetAt 0).name
                (Tile.mk 7 [Frame.mk 5 100, Frame.mk 6 100]).frames ++ post)
        ∧ (exportMap stdEnv "Ground" exampleMap).scene
          = (traverse stdEnv exampleMap).out
            ++ trailer stdEnv exampleMap (traverse stdEnv exampleMap).animationMap ++ ["\x7d"]
        ∧ (animationBlock stdEnv (exampleMap.tilesetAt 0).name
              (Tile.mk 7 [Frame.mk 5 100, Frame.mk 6 100]).frames).head?
          = some ("\tproperty string "
              ++ (baseId stdEnv (exampleMap.tilesetAt 0).name
                  ++ tileIdSuffix (Tile.mk 7 [Frame.mk 5 100, Frame.mk 6 100]).frames)
              ++ ": \"\"")) :=
  ⟨List.mem_singleton.2 rfl, by decide, by decide, by decide, by decide, by decide,
    bound_name_declared stdEnv "Ground" exampleMap groundLayer (List.mem_singleton.2 rfl) 0 1 0
      (Tile.mk 7 [Frame.mk 5 100, Frame.mk 6 100]) (by decide) (by decide) (by decide)
      (by decide) (by decide)⟩

/-! ## Cells that do not resolve -/

theorem sequences_qmapModify_id (k : Nat) :
    ∀ am : AnimationMap,
      ((qmapModify k (fun animations => animations) am).map Prod.snd).flatten
        = (am.map Prod.snd).flatten
  | [] => rfl
  | (k1, v) :: rest => by
    unfold qmapModify
    split_ifs
    · simp
    · simp
    · simp only [List.map_cons, List.flatten_cons]
      rw [sequences_qmapModify_id k rest]

theorem cellLine_isSome (env : Env) (m : TileMap) (layer : TileLayer) (y x : Nat) :
    (cellLine env m layer y x).isSome = cellResolves m layer y x := by
  unfold cellLine cellResolves
  cases h1 : (layer.cellAt x y).tileset with
  | none => simp [h1]
  | some a =>
    cases h2 : (m.tilesetAt a).tileAt (layer.cellAt x y).tileId with
    | none => simp [h1, h2]
    | some tile =>
      by_cases h3 : tile.isAnimated = true
      · simp [h1, h2, h3]
      · simp [h1, h2, h3]

theorem length_filterMap_eq {α β : Type} (f : α → Option β) :
    ∀ l : List α, (l.filterMap f).length = (l.filter fun c => (f c).isSome).length
  | [] => rfl
  | c :: l => by
    cases h : f c with
    | none => simp [List.filterMap_cons, List.filter_cons, h, length_filterMap_eq f l]
    | some b => simp [List.filterMap_cons, List.filter_cons, h, length_filterMap_eq f l]

/-- Claim C15: a cell with no tileset, or with a tile id that does not resolve in
its tileset, is skipped: the step of the cell loop writes no line, adds no
member to `uniqueTiles` and leaves the recorded frame sequences as they are;
the placement lines of a layer block number the cells of the layer that have
a tileset and a resolving tile; and the traversal of every map ends, with the
opening lines followed by one block per layer as its output. -/
theorem unresolved_cells_skipped (env : Env) (m : TileMap) (layer : TileLayer) (y x : Nat)
    (st : ExportState)
    (h : (layer.cellAt x y).tileset = none
      ∨ ∃ a, (layer.cellAt x y).tileset = some a
          ∧ (m.tilesetAt a).tileAt (layer.cellAt x y).tileId = none) :
    (cellStep env m layer y x st).out = st.out
      ∧ (cellStep env m layer y x st).uniqueTiles = st.uniqueTiles
      ∧ ((cellStep env m layer y x st).animationMap.map Prod.snd).flatten
        = (st.animationMap.map Prod.snd).flatten
      ∧ cellLine env m layer y x = none
      ∧ layerBlock env m layer
        = layerOpening env layer
          ++ (cellsOf layer).filterMap (fun c => cellLine env m layer c.1 c.2) ++ ["\t\x7d"]
      ∧ ((cellsOf layer).filterMap (fun c => cellLine env m layer c.1 c.2)).length
        = ((cellsOf layer).filter fun c => cellResolves m layer c.1 c.2).length
      ∧ (traverse env m).out
        = sceneOpening env m ++ (m.tileLayers.map (layerBlock env m)).flatten := by
  have hcount : ((cellsOf layer).filterMap (fun c => cellLine env m layer c.1 c.2)).length
      = ((cellsOf layer).filter fun c => cellResolves m layer c.1 c.2).length := by
    rw [length_filterMap_eq]
    congr 1
    apply List.filter_congr
    intro c _
    exact cellLine_isSome env m layer c.1 c.2
  have hout : (traverse env m).out
      = sceneOpening env m ++ (m.tileLayers.map (layerBlock env m)).flatten := by
    rw [traverse_eq]
  rw [cellStep_eq]
  rcases cell_cases m layer y x with ⟨k1, hp, ha⟩ | ⟨a, k1, k2, hp, ha⟩ |
    ⟨a, tile, k1, k2, k3, hp, ha⟩ | ⟨a, tile, k1, k2, k3, hp, ha⟩
  · have hline : cellLine env m layer y x = none := by
      unfold cellLine
      simp [k1]
    rw [hp, ha, hline]
    refine ⟨?_, ?_, ?_, rfl, rfl, hcount, hout⟩
    · simp
    · simp [insertAll]
    · simp [recordAnim]
  · have hline : cellLine env m layer y x = none := by
      unfold cellLine
      simp [k1, k2]
    rw [hp, ha, hline]
    refine ⟨?_, ?_, ?_, rfl, rfl, hcount, hout⟩
    · simp
    · simp [insertAll]
    · simpa [recordAnim] using sequences_qmapModify_id a st.animationMap
  · rcases h with h | ⟨b, h, h4⟩
    · rw [k1] at h
      cases h
    · rw [k1] at h
      cases h
      rw [k2] at h4
      cases h4
  · rcases h with h | ⟨b, h, h4⟩
    · rw [k1] at h
      cases h
    · rw [k1] at h
      cases h
      rw [k2] at h4
      cases h4

theorem unresolved_cells_skipped_witness :
    ((gapLayer.cellAt 1 0).tileset = none
        ∨ ∃ a, (gapLayer.cellAt 1 0).tileset = some a
            ∧ (gapMap.tilesetAt a).tileAt (gapLayer.cellAt 1 0).tileId = none)
      ∧ ((cellStep stdEnv gapMap gapLayer 0 1 (ExportState.mk [] [] [])).out
          = (ExportState.mk [] [] []).out
        ∧ (cellStep stdEnv gapMap gapLayer 0 1 (ExportState.mk [] [] [])).uniqueTiles
          = (ExportState.mk [] [] []).uniqueTiles
        ∧ ((cellStep stdEnv gapMap gapLayer 0 1
              (ExportState.mk [] [] [])).animationMap.map Prod.snd).flatten
          = ((ExportState.mk [] [] []).animationMap.map Prod.snd).flatten
        ∧ cellLine stdEnv gapMap gapLayer 0 1 = none
        ∧ layerBlock stdEnv gapMap gapLayer
          = layerOpening stdEnv gapLayer
            ++ (cellsOf gapLayer).filterMap (fun c => cellLine stdEnv gapMap gapLayer c.1 c.2)
            ++ ["\t\x7d"]
        ∧ ((cellsOf gapLayer).filterMap
              (fun c => cellLine stdEnv gapMap gapLayer c.1 c.2)).length
          = ((cellsOf gapLayer).filter fun c => cellResolves gapMap gapLayer c.1 c.2).length
        ∧ (traverse stdEnv gapMap).out
          = sceneOpening stdEnv gapMap
            ++ (gapMap.tileLayers.map (layerBlock stdEnv gapMap)).flatten) :=
  ⟨Or.inr ⟨0, by decide, by decide⟩,
    unresolved_cells_skipped stdEnv gapMap gapLayer 0 1 (ExportState.mk [] [] [])
      (Or.inr ⟨0, by decide, by decide⟩)⟩

/-! ## The asset loop under frames that resolve -/

/-- When every frame of every animated tile shown by a cell resolves in the
tileset of the cell, `uniqueTiles` holds no null pointer and the asset loop
computes a file name for every member. -/
theorem asset_lookup_safe (env : Env) (m : TileMap)
    (h : ∀ layer ∈ m.tileLayers, ∀ (y x a : Nat) (tile : Tile),
      y < layer.height → x < layer.width → (layer.cellAt x y).tileset = some a →
      (m.tilesetAt a).tileAt (layer.cellAt x y).tileId = some tile →
      ∀ frame ∈ tile.frames, (m.tilesetAt a).tileAt frame.tileId ≠ none) :
    none ∉ (traverse env m).uniqueTiles
      ∧ (assetLoop env m (traverse env m).uniqueTiles).isSome = true := by
  have hnone : none ∉ (traverse env m).uniqueTiles := by
    intro hmem
    rcases (mem_uniqueTiles env m none).1 hmem with
      ⟨_, _, _, _, _, _, _, _, _, _, _, h6⟩ | ⟨e, he, animation, ha, frame, hf, h6⟩
    · cases h6
    · obtain ⟨layer, hl, y, x, hy, hx, hc⟩ :=
        (recorded_iff env m e.1 animation).1 ⟨e, he, rfl, ha⟩
      rcases cell_cases m layer y x with ⟨_, _, k⟩ | ⟨a, _, _, _, k⟩ |
        ⟨a, tile, k1, k2, _, _, k⟩ | ⟨a, tile, _, _, _, _, k⟩
      · rw [k] at hc
        cases hc
      · rw [k] at hc
        cases hc
      · rw [k] at hc
        simp only [Option.some.injEq, Prod.mk.injEq] at hc
        obtain ⟨hc1, hc2⟩ := hc
        have := h layer hl y x a tile hy hx k1 k2 frame (hc2 ▸ hf)
        rw [← hc1] at h6
        unfold tilePtr at h6
        cases ht : (m.tilesetAt a).tileAt frame.tileId with
        | none => exact this ht
        | some t =>
          rw [ht] at h6
          cases h6
      · rw [k] at hc
        cases hc
  exact ⟨hnone, (assetLoop_isSome env m _).2 hnone⟩

/-- Claim C20 fails on the code in its last part: in `markerMap` the one frame of
the animated tile resolves, `uniqueTiles` holds no null pointer and the asset
loop computes a name for every member, but the name it computes for the tile
of the frame with tile id 5 is "5_%2.png", not the tileset identifier "%1"
followed by "_5.png". -/
theorem frame_file_name_with_marker :
    (markerMap.tilesetAt 0).tileAt (Frame.mk 5 100).tileId = some (Tile.mk 5 [])
      ∧ (traverse stdEnv markerMap).uniqueTiles = [some (TileRef.mk 0 5)]
      ∧ assetLoop stdEnv markerMap (traverse stdEnv markerMap).uniqueTiles
        = some ["5_%2.png"]
      ∧ imageAssetName stdEnv markerMap (TileRef.mk 0 5) = "5_%2.png"
      ∧ baseId stdEnv (markerMap.tilesetAt 0).name ++ "_" ++ decInt (Frame.mk 5 100).tileId
          ++ ".png" = "%1_5.png" := by
  refine ⟨by decide, by decide, by decide, by decide, by decide⟩

/-! ## The manifest as a function of the members of the asset set -/

theorem allSome_perm {α : Type} {l1 l2 : List (Option α)} (h : l1.Perm l2) :
    sameUpToOrder (allSome l1) (allSome l2) := by
  induction h with
  | nil => exact List.Perm.refl _
  | @cons x k1 k2 _ ih =>
    cases x with
    | none => trivial
    | some v =>
      simp only [allSome]
      cases h1 : allSome k1 <;> cases h2 : allSome k2 <;> rw [h1, h2] at ih
      · trivial
      · exact ih
      · exact ih
      · exact List.Perm.cons v ih
  | swap x y l =>
    cases x <;> cases y <;> simp only [allSome] <;> cases allSome l <;>
      first | trivial | exact List.Perm.swap _ _ _
  | @trans k1 k2 k3 _ _ ih1 ih2 =>
    cases h1 : allSome k1 <;> cases h2 : allSome k2 <;> cases h3 : allSome k3 <;>
      rw [h1, h2] at ih1 <;> rw [h2, h3] at ih2 <;>
      first | trivial | exact False.elim ih1 | exact False.elim ih2 | exact List.Perm.trans ih1 ih2

theorem assetLoop_eq_allSome (env : Env) (m : TileMap) :
    ∀ u : List (Option TileRef),
      assetLoop env m u = (allSome (memberKeys m u)).map (List.map (keyFileName env))
  | [] => rfl
  | none :: _ => rfl
  | some tile :: rest => by
    have ih := assetLoop_eq_allSome env m rest
    simp only [assetLoop, memberKeys, List.map_cons, Option.map_some', allSome] at ih ⊢
    rw [ih]
    cases allSome (List.map (Option.map fun tile => ((m.tilesetAt tile.tileset).name, tile.id))
      rest) <;> rfl

/-- Claim C11, as stated, fails: the asset sets of `sameNameMap` and `singleMap`
have the same (tileset name, tile id) members, namely ("base", 3) alone, but
with the same map prefix the lists handed to `exportQRC` differ: the first
holds "base_3.png" twice. -/
theorem manifest_differs_for_same_members :
    (∀ k, k ∈ memberKeys sameNameMap (traverse stdEnv sameNameMap).uniqueTiles
        ↔ k ∈ memberKeys singleMap (traverse stdEnv singleMap).uniqueTiles)
      ∧ manifestEntries stdEnv sameNameMap "P" = some ["PMap.qml", "base_3.png", "base_3.png"]
      ∧ manifestEntries stdEnv singleMap "P" = some ["PMap.qml", "base_3.png"]
      ∧ manifestEntries stdEnv sameNameMap "P" ≠ manifestEntries stdEnv singleMap "P" := by
  have h1 : memberKeys sameNameMap (traverse stdEnv sameNameMap).uniqueTiles
      = [some ("base", 3), some ("base", 3)] := by decide
  have h2 : memberKeys singleMap (traverse stdEnv singleMap).uniqueTiles
      = [some ("base", 3)] := by decide
  refine ⟨?_, by decide, by decide, by decide⟩
  intro k
  rw [h1, h2]
  simp

/-- Claim C11, amended: two maps exported with the same map prefix whose asset
sets have the same (tileset name, tile id) members with the same number of
occurrences, in whatever order the traversals met them, hand the same list to
`exportQRC` (or both dereference a null member). -/
theorem manifest_of_same_members (env : Env) (mapPrefix : String) (m1 m2 : TileMap)
    (h : (memberKeys m1 (traverse env m1).uniqueTiles).Perm
      (memberKeys m2 (traverse env m2).uniqueTiles)) :
    (exportMap env mapPrefix m1).assets = (exportMap env mapPrefix m2).assets := by
  have hp := allSome_perm h
  simp only [exportMap, manifestEntries, assetList, assetLoop_eq_allSome]
  cases h1 : allSome (memberKeys m1 (traverse env m1).uniqueTiles) with
  | none =>
    cases h2 : allSome (memberKeys m2 (traverse env m2).uniqueTiles) with
    | none => rfl
    | some b =>
      rw [h1, h2] at hp
      exact False.elim hp
  | some a =>
    cases h2 : allSome (memberKeys m2 (traverse env m2).uniqueTiles) with
    | none =>
      rw [h1, h2] at hp
      exact False.elim hp
    | some b =>
      rw [h1, h2] at hp
      have hab : a.Perm b := hp
      simp only [Option.map_some', Option.some.injEq]
      exact qSort_of_perm _ _ ((hab.map _).cons _)

theorem manifest_of_same_members_witness :
    (traverse stdEnv exampleMap).uniqueTiles
        = [some (TileRef.mk 0 3), some (TileRef.mk 0 5), some (TileRef.mk 0 6)]
      ∧ (traverse stdEnv mirrorMap).uniqueTiles
        = [some (TileRef.mk 0 5), some (TileRef.mk 0 6), some (TileRef.mk 0 3)]
      ∧ (memberKeys exampleMap (traverse stdEnv exampleMap).uniqueTiles).Perm
          (memberKeys mirrorMap (traverse stdEnv mirrorMap).uniqueTiles)
      ∧ (exportMap stdEnv "Ground" exampleMap).assets
        = (exportMap stdEnv "Ground" mirrorMap).assets :=
  ⟨by decide, by decide, by decide,
    manifest_of_same_members stdEnv "Ground" exampleMap mirrorMap (by decide)⟩

/-! ## Layer attributes -/

theorem qFuzzyCompareDouble_zero (p : Dyadic) :
    qFuzzyCompareDouble p (Dyadic.mk 0 0) = true ↔ p.num = 0 := by
  simp only [qFuzzyCompareDouble, fuzzyWithin, decide_eq_true_eq, pow_zero, mul_one, zero_mul,
    sub_zero, abs_zero]
  constructor
  · intro h
    have h1 : |p.num| * 1000000000000 ≤ 0 := le_trans h (min_le_right _ _)
    have h2 : 0 ≤ |p.num| := abs_nonneg _
    have h3 : |p.num| = 0 := by omega
    exact abs_eq_zero.1 h3
  · intro h
    simp [h]

/-- Claim C16 fails on the code: `qFuzzyCompare` against 0.0 is true for the
value 0 alone, so the layer `noiseLayer`, whose offset x is 2^-50, gets its x
line. -/
theorem tiny_offset_is_written (env : Env) :
    (∀ p : Dyadic, qFuzzyCompareDouble p (Dyadic.mk 0 0) = true ↔ p.num = 0)
      ∧ qFuzzyCompareDouble noiseLayer.offsetX (Dyadic.mk 0 0) = false
      ∧ layerOpening env noiseLayer
        = ["\tItem \x7b", "\t\tid: " ++ baseId env "L",
           "\t\tx: " ++ env.showReal (Dyadic.mk 1 50)] := by
  refine ⟨qFuzzyCompareDouble_zero, by decide, ?_⟩
  have h1 : qFuzzyCompareDouble (Dyadic.mk 1 50) (Dyadic.mk 0 0) = false := by decide
  have h2 : qFuzzyCompareDouble (Dyadic.mk 0 0) (Dyadic.mk 0 0) = true := by decide
  have h3 : qFuzzyCompareFloat (Dyadic.mk 1 0) (Dyadic.mk 1 0) = true := by decide
  simp [layerOpening, noiseLayer, h1, h2, h3]

/-! ## The map prefix -/

theorem qSplit_of_not_mem (sep : Char) :
    ∀ l : List Char, sep ∉ l → qSplit sep l = [l]
  | [], _ => rfl
  | c :: cs, h => by
    have hc : c ≠ sep := fun e => h (e ▸ List.mem_cons_self _ _)
    have hcs : sep ∉ cs := fun e => h (List.mem_cons_of_mem _ e)
    simp only [qSplit, if_neg hc, qSplit_of_not_mem sep cs hcs]

/-- When the text after the last separator is `comp`, it is the last part. -/
theorem qSplit_last (sep : Char) (comp : List Char) (hcomp : sep ∉ comp) :
    ∀ d : List Char, ∃ front, front ≠ [] ∧ qSplit sep (d ++ sep :: comp) = front ++ [comp]
  | [] => ⟨[[]], by simp, by simp [qSplit, qSplit_of_not_mem sep comp hcomp]⟩
  | c :: d => by
    obtain ⟨front, hne, hfront⟩ := qSplit_last sep comp hcomp d
    cases front with
    | nil => exact absurd rfl hne
    | cons p ps =>
      by_cases hc : c = sep
      · refine ⟨[] :: p :: ps, by simp, ?_⟩
        simp only [List.cons_append, qSplit, if_pos hc, List.append_eq]
        rw [hfront]
        rfl
      · refine ⟨(c :: p) :: ps, by simp, ?_⟩
        simp only [List.cons_append, qSplit, if_neg hc, List.append_eq]
        rw [hfront]
        rfl

/-- The part before the first separator is the first part. -/
theorem qSplit_head (sep : Char) (ext : List Char)
    (hext : ext = [] ∨ ∃ e, ext = sep :: e) :
    ∀ stem : List Char, sep ∉ stem → (qSplit sep (stem ++ ext)).head? = some stem
  | [], _ => by
    rcases hext with rfl | ⟨e, rfl⟩
    · rfl
    · simp [qSplit]
  | c :: stem, h => by
    have hc : c ≠ sep := fun e => h (e ▸ List.mem_cons_self _ _)
    have hcs : sep ∉ stem := fun e => h (List.mem_cons_of_mem _ e)
    have ih := qSplit_head sep ext hext stem hcs
    simp only [List.cons_append, qSplit, if_neg hc, List.append_eq]
    cases hq : qSplit sep (stem ++ ext) with
    | nil =>
      rw [hq] at ih
      cases ih
    | cons part parts =>
      rw [hq] at ih
      simp only [List.head?_cons, Option.some.injEq] at ih
      simp [ih]

theorem fileStem_eq (mapPath : String) (dir stem ext : List Char)
    (hpath : mapPath.data = dir ++ stem ++ ext)
    (hdir : dir = [] ∨ ∃ d, dir = d ++ ['/'])
    (hcomp : '/' ∉ stem ++ ext) (hstem : '.' ∉ stem)
    (hext : ext = [] ∨ ∃ e, ext = '.' :: e) :
    fileStem mapPath = stem := by
  have hlast : (qSplit '/' mapPath.data).getLast? = some (stem ++ ext) := by
    rw [hpath, List.append_assoc]
    rcases hdir with rfl | ⟨d, rfl⟩
    · rw [List.nil_append, qSplit_of_not_mem '/' _ hcomp]
      rfl
    · obtain ⟨front, _, hf⟩ := qSplit_last '/' (stem ++ ext) hcomp d
      rw [List.append_assoc, List.singleton_append, hf]
      simp
  unfold fileStem
  rw [hlast, Option.getD_some, qSplit_head '.' ext hext stem hstem, Option.getD_some]

theorem argStr_qrcFile (mapPrefix : String) :
    argStr "%1Map.qrc" mapPrefix = mapPrefix ++ "Map.qrc" := by
  apply String.ext
  have h : scanArg "%1Map.qrc".data
      = [ArgPiece.marker 1 false ['%', '1'], ArgPiece.text 'M', ArgPiece.text 'a',
         ArgPiece.text 'p', ArgPiece.text '.', ArgPiece.text 'q', ArgPiece.text 'r',
         ArgPiece.text 'c'] := by decide
  simp [argStr, argFill, h, minMarker, fillPiece]

/-- Claim C17, as stated, fails: with an upper-casing that turns the Deseret
letter U+10428 into its capital U+10400, the map path made of U+10428, "x" and
".tmx" gets the prefix U+10428 "x", its stem unchanged, not the stem with its
first character replaced by its upper-case form. -/
theorem prefix_keeps_astral_first_character :
    deseretUpper (String.singleton (Char.ofNat 66600)) = String.singleton (Char.ofNat 66560)
      ∧ mapPrefixOf deseretUpper (String.mk [Char.ofNat 66600, 'x', '.', 't', 'm', 'x'])
        = some (String.mk [Char.ofNat 66600, 'x'])
      ∧ mapPrefixOf deseretUpper (String.mk [Char.ofNat 66600, 'x', '.', 't', 'm', 'x'])
        ≠ some (deseretUpper (String.singleton (Char.ofNat 66600)) ++ "x") := by
  refine ⟨by decide, by decide, by decide⟩

/-- Claim C17, amended: for a map path whose last component (the text after the
last '/') starts with a non-empty part before its first '.', the prefix that
`onLaunched` computes is that part with its first `QChar` replaced by its
upper-case form and every later character as it is: a first character of the
basic plane is replaced by its upper-case form, a first character beyond it
(two `QChar`s, the first a surrogate) stays as it is; the scene file is then
named "<prefix>Map.qml" and the manifest "<prefix>Map.qrc". -/
theorem map_prefix_derivation (toUpper : String → String) (mapPath : String)
    (dir rest ext : List Char) (c : Char)
    (hpath : mapPath.data = dir ++ (c :: rest) ++ ext)
    (hdir : dir = [] ∨ ∃ d, dir = d ++ ['/'])
    (hcomp : '/' ∉ (c :: rest) ++ ext) (hstem : '.' ∉ c :: rest)
    (hext : ext = [] ∨ ∃ e, ext = '.' :: e) :
    mapPrefixOf toUpper mapPath = some (firstUnitUpper toUpper c ++ String.mk rest)
      ∧ (c.toNat < 65536 → firstUnitUpper toUpper c = toUpper (String.singleton c))
      ∧ (65536 ≤ c.toNat → firstUnitUpper toUpper c = String.singleton c)
      ∧ sceneFileName (firstUnitUpper toUpper c ++ String.mk rest)
        = firstUnitUpper toUpper c ++ String.mk rest ++ "Map.qml"
      ∧ manifestFileName (firstUnitUpper toUpper c ++ String.mk rest)
        = firstUnitUpper toUpper c ++ String.mk rest ++ "Map.qrc"
      ∧ mapPrefixOf asciiUpper "maps/my level.v2.tmx" = some "My level" := by
  refine ⟨?_, ?_, ?_, argStr_mapFile _, argStr_qrcFile _, by decide⟩
  · rw [mapPrefixOf, fileStem_eq mapPath dir (c :: rest) ext hpath hdir hcomp hstem hext]
    rfl
  · intro h
    simp [firstUnitUpper, h]
  · intro h
    have h1 : ¬ c.toNat < 65536 := by omega
    simp [firstUnitUpper, h1]

theorem map_prefix_derivation_witness :
    "maps/my level.v2.tmx".data = "maps/".data ++ ('m' :: "y level".data) ++ ".v2.tmx".data
      ∧ ("maps/".data = [] ∨ ∃ d, "maps/".data = d ++ ['/'])
      ∧ '/' ∉ ('m' :: "y level".data) ++ ".v2.tmx".data
      ∧ '.' ∉ 'm' :: "y level".data
      ∧ (".v2.tmx".data = [] ∨ ∃ e, ".v2.tmx".data = '.' :: e)
      ∧ (mapPrefixOf asciiUpper "maps/my level.v2.tmx"
          = some (firstUnitUpper asciiUpper 'm' ++ String.mk "y level".data)
        ∧ (('m' : Char).toNat < 65536 →
            firstUnitUpper asciiUpper 'm' = asciiUpper (String.singleton 'm'))
        ∧ (65536 ≤ ('m' : Char).toNat →
            firstUnitUpper asciiUpper 'm' = String.singleton 'm')
        ∧ sceneFileName (firstUnitUpper asciiUpper 'm' ++ String.mk "y level".data)
          = firstUnitUpper asciiUpper 'm' ++ String.mk "y level".data ++ "Map.qml"
        ∧ manifestFileName (firstUnitUpper asciiUpper 'm' ++ String.mk "y level".data)
          = firstUnitUpper asciiUpper 'm' ++ String.mk "y level".data ++ "Map.qrc"
        ∧ mapPrefixOf asciiUpper "maps/my level.v2.tmx" = some "My level") :=
  ⟨by decide, Or.inr ⟨"maps".data, by decide⟩, by decide, by decide,
    Or.inr ⟨"v2.tmx".data, by decide⟩,
    map_prefix_derivation asciiUpper "maps/my level.v2.tmx" "maps/".data "y level".data
      ".v2.tmx".data 'm' (by decide) (Or.inr ⟨"maps".data, by decide⟩) (by decide) (by decide)
      (Or.inr ⟨"v2.tmx".data, by decide⟩)⟩

end Tmx2Qml
